import Mathlib

/-!
Verification development for the DTR attendance-extraction engine.

The definitions below are a shallow embedding of the JavaScript sources:
  * `src/app/routes/uploadRoutes.js` (upload route, simple biometric parser,
    utils with the block parser, SQLite persistence, DB read-back),
  * `src/app/routes/generateRoutes.js`,
  * `src/unnamed/part_000` (attendance controller with
    `calculateEmployeeTimeSummary`, and index routes).

Conventions of the embedding:
  * machine numbers are `Nat`/`Int`;
  * all time arithmetic is done in integer minutes.  The JS code computes
    durations as floating-point hours (milliseconds divided by 3600000) but
    every input is a whole-minute clock time, so `Math.floor x`,
    `Math.round ((x % 1) * 60)` and the comparisons with 8 hours coincide
    with exact integer arithmetic on minutes;
  * `new Date (dateString ++ " " ++ t)` validity for a clock-time cell is
    modelled by `parseClock`, which accepts the `H:MM` / `HH:MM` 24-hour
    strings the sheets carry and rejects everything else (a rejected string
    behaves like the JS `Invalid Date`: every guarded comparison fails);
  * the worksheet is a sparse grid of string/number cells (`Sheet`), and the
    regular expressions of `findCellByValue` / `findAllCellsByValue` are
    embedded as the Boolean predicates `dayLabelMatches`, `exactLabel`,
    `startsLabel` describing exactly the languages of those anchored
    patterns.
-/

namespace Dtr

/-- `String(n).padStart(2, "0")` for a natural number. -/
def padTwo (n : Nat) : String :=
  if n < 10 then "0" ++ toString n else toString n

/-- Formats minutes as the `{H}h {MM}m` strings built throughout
`calculateDailyMetricsFromTimes`:
`Math.floor(min / 60) ++ "h " ++ pad(min % 60) ++ "m"`. -/
def fmtHM (totalMinutes : Nat) : String :=
  toString (totalMinutes / 60) ++ "h " ++ padTwo (totalMinutes % 60) ++ "m"

/-- `remarks = (remarks ? remarks + ", " : "") + s`, applied only when the
corresponding metric fired (`b`). -/
def addRemark (r : String) (b : Bool) (s : String) : String :=
  if b then (if r = "" then s else r ++ ", " ++ s) else r

/-! ### String helpers

Structural (kernel-reducible) counterparts of the JS string operations
used by the parsers: trimming, case folding, and single-character splits
(`split('/')`, `split('-')`, `split(':')`). -/

/-- The whitespace characters relevant to the sheets' labels. -/
def isSpaceLike (c : Char) : Bool :=
  c = ' ' || c = '\t' || c = '\r' || c = '\n'

/-- `.trim()` on a character list. -/
def trimChars (cs : List Char) : List Char :=
  ((cs.dropWhile isSpaceLike).reverse.dropWhile isSpaceLike).reverse

/-- `.trim()`. -/
def strTrim (s : String) : String :=
  ⟨trimChars s.data⟩

/-- ASCII lower-casing of one character. -/
def lowerChar (c : Char) : Char :=
  if 65 ≤ c.toNat ∧ c.toNat ≤ 90 then Char.ofNat (c.toNat + 32) else c

/-- `.toLowerCase()`. -/
def strLower (s : String) : String :=
  ⟨s.data.map lowerChar⟩

/-- ASCII upper-casing of one character. -/
def upperChar (c : Char) : Char :=
  if 97 ≤ c.toNat ∧ c.toNat ≤ 122 then Char.ofNat (c.toNat - 32) else c

/-- `.toUpperCase()`. -/
def strUpper (s : String) : String :=
  ⟨s.data.map upperChar⟩

/-- Split a character list on a separator character. -/
def splitChars (sep : Char) (cs : List Char) : List (List Char) :=
  cs.foldr
    (fun c acc =>
      if c = sep then [] :: acc
      else
        match acc with
        | [] => [[c]]
        | g :: gs => (c :: g) :: gs)
    [[]]

/-- `.split(sep)` for a one-character separator. -/
def strSplitOnChar (sep : Char) (s : String) : List String :=
  (splitChars sep s.data).map (fun cs => ⟨cs⟩)

/-- `.startsWith(pre)`. -/
def strStartsWith (s pre : String) : Bool :=
  pre.data.isPrefixOf s.data

/-- Drop the first `n` characters. -/
def strDrop (s : String) (n : Nat) : String :=
  ⟨s.data.drop n⟩

/-- Keep the first `n` characters. -/
def strTake (s : String) (n : Nat) : String :=
  ⟨s.data.take n⟩

/-- Drop the longest run of characters satisfying `p`. -/
def strDropWhile (p : Char → Bool) (s : String) : String :=
  ⟨s.data.dropWhile p⟩

/-- First-occurrence deduplication with an accumulator of seen values
(the JS `Set` insertion behaviour). -/
def dedupNatAux (seen : List Nat) : List Nat → List Nat
  | [] => []
  | x :: xs =>
    if seen.contains x then dedupNatAux seen xs
    else x :: dedupNatAux (x :: seen) xs

/-- The distinct values of a list, first occurrences first. -/
def dedupNat (l : List Nat) : List Nat :=
  dedupNatAux [] l

/-- Leap years of the Gregorian calendar (as used by the JS `Date`). -/
def isLeapYear (y : Nat) : Bool :=
  y % 4 = 0 && (y % 100 ≠ 0 || y % 400 = 0)

/-- `new Date(year, monthNum, 0).getDate()`: the day count of month `m`
(1-based) of year `y`.  Faithful to the JS call for `1 ≤ m ≤ 12`. -/
def daysInMonth (y m : Nat) : Nat :=
  if m = 2 then (if isLeapYear y then 29 else 28)
  else if m = 4 ∨ m = 6 ∨ m = 9 ∨ m = 11 then 30
  else 31

/-- `new Date(year, m - 1, d).getDay()`: 0 = Sunday … 6 = Saturday
(Sakamoto's congruence; agrees with the JS `Date` on the Gregorian range,
including the linear overflow `new Date(y, m - 1, 31)` for a short month). -/
def dayOfWeek (y m d : Nat) : Nat :=
  let off := [0, 3, 2, 5, 0, 3, 5, 1, 4, 6, 2, 4]
  let y1 := if m < 3 then y - 1 else y
  (y1 + y1 / 4 - y1 / 100 + y1 / 400 + off.getD (m - 1) 0 + d) % 7

/-- `toLocaleString("en-US", {weekday: "short"})`. -/
def weekdayShort (w : Nat) : String :=
  ["Sun", "Mon", "Tue", "Wed", "Thu", "Fri", "Sat"].getD w ""

/-- `toLocaleString("en-US", {weekday: "long"})`. -/
def weekdayLong (w : Nat) : String :=
  ["Sunday", "Monday", "Tuesday", "Wednesday", "Thursday", "Friday",
   "Saturday"].getD w ""

/-- Numeric value of a list of decimal digit characters. -/
def digitsToNat (ds : List Char) : Nat :=
  ds.foldl (fun a c => a * 10 + (c.toNat - 48)) 0

/-- `parseInt(s)` restricted to the plain decimal strings the sheets carry:
the value of the leading digit run, `none` when the string does not start
with a digit (JS `NaN`). -/
def parseIntLeading (s : String) : Option Nat :=
  let ds := s.toList.takeWhile Char.isDigit
  if ds.isEmpty then none else some (digitsToNat ds)

/-- `month.split("-")` followed by `parseInt` on the year and month parts,
as done before every `daysInMonth` computation.  `none` models the JS `NaN`
propagation (which makes the enclosing day loop run zero times). -/
def monthPartsOpt (month : String) : Option (Nat × Nat) :=
  match strSplitOnChar '-' month with
  | y :: m :: _ =>
    match parseIntLeading y, parseIntLeading m with
    | some yv, some mv => some (yv, mv)
    | _, _ => none
  | _ => none

/-- Minutes since midnight of a clock-time cell, modelling the validity of
`new Date(dateString + " " + s)` for the `H:MM` / `HH:MM` strings of the
sheets; `none` stands for the JS `null` (empty field) or `Invalid Date`. -/
def parseClock (s : String) : Option Nat :=
  match strSplitOnChar ':' s with
  | [h, m] =>
    if 0 < h.length && h.length ≤ 2 && h.toList.all Char.isDigit
        && m.length = 2 && m.toList.all Char.isDigit then
      let hv := digitsToNat h.toList
      let mv := digitsToNat m.toList
      if hv ≤ 23 && mv ≤ 59 then some (hv * 60 + mv) else none
    else none
  | _ => none

/-- Duration in minutes contributed by an (in, out) pair: positive only when
both ends parse and `out > in` (uploadRoutes.js lines 842–876). -/
def pairMinutes (tin tout : Option Nat) : Nat :=
  match tin, tout with
  | some i, some o => if i < o then o - i else 0
  | _, _ => 0

/-- `String(record.undertime_excel).match(/^(\d+):(\d+)$/)` with the two
captured groups run through `parseInt`. -/
def parseUndertimeExcel (s : String) : Option (Nat × Nat) :=
  match strSplitOnChar ':' s with
  | [h, m] =>
    if 0 < h.length && h.toList.all Char.isDigit
        && 0 < m.length && m.toList.all Char.isDigit then
      some (digitsToNat h.toList, digitsToNat m.toList)
    else none
  | _ => none

/-- The per-day raw record handed to the metrics calculators: six raw clock
strings plus the four optional precomputed columns read from the sheet
(`""` models both the empty cell and the absent JS object key). -/
structure RawRecord where
  am_arrival : String := ""
  am_departure : String := ""
  pm_arrival : String := ""
  pm_departure : String := ""
  ot_arrival : String := ""
  ot_departure : String := ""
  late_excel : String := ""
  undertime_excel : String := ""
  overtime_hours_excel : String := ""
  total_hours_excel : String := ""
deriving DecidableEq

/-- The calculators' result object (uploadRoutes.js lines 992–1006). -/
structure DailyMetrics where
  am_arrival : String
  am_departure : String
  pm_arrival : String
  pm_departure : String
  ot_arrival : String
  ot_departure : String
  total_hours : String
  late : String
  early_out : String
  overtime : String
  remarks : String
  undertime_hours : String
  undertime_minutes : String
deriving DecidableEq

/-- `hasActualWorkEntries`: JS truthiness of the six raw time strings. -/
def hasWorkEntries (rec : RawRecord) : Bool :=
  rec.am_arrival ≠ "" || rec.am_departure ≠ "" || rec.pm_arrival ≠ ""
    || rec.pm_departure ≠ "" || rec.ot_arrival ≠ "" || rec.ot_departure ≠ ""

/-- `morningDuration + afternoonDuration` (and equally `workedMinutes`), in
minutes. -/
def workedMinutes (rec : RawRecord) : Nat :=
  pairMinutes (parseClock rec.am_arrival) (parseClock rec.am_departure)
    + pairMinutes (parseClock rec.pm_arrival) (parseClock rec.pm_departure)

/-- `overtimeCalculatedDuration`, in minutes. -/
def otPairMinutes (rec : RawRecord) : Nat :=
  pairMinutes (parseClock rec.ot_arrival) (parseClock rec.ot_departure)

/-- `totalWorkDurationHours + overtimeCalculatedDuration`, in minutes. -/
def totalForOtMinutes (rec : RawRecord) : Nat :=
  workedMinutes rec + otPairMinutes rec

/-- The `late` variable after the late block (lines 799, 941–948): the
precomputed value if non-empty, otherwise `{H}h {MM}m` past the 08:00
standard start (480 minutes) when the AM arrival parses and is late. -/
def lateStr (rec : RawRecord) : String :=
  if rec.late_excel = "" then
    match parseClock rec.am_arrival with
    | some t => if 480 < t then fmtHM (t - 480) else ""
    | none => ""
  else rec.late_excel

/-- Did the late block append `"Late"` to remarks? -/
def lateFlag (rec : RawRecord) : Bool :=
  rec.late_excel = ""
    && (match parseClock rec.am_arrival with
        | some t => 480 < t
        | none => false)

/-- The `earlyOut` variable (lines 802, 950–962): departure before the 17:00
standard end (1020 minutes). -/
def earlyOutStr (rec : RawRecord) : String :=
  match parseClock rec.pm_departure with
  | some t => if t < 1020 then fmtHM (1020 - t) else ""
  | none => ""

/-- Did the early-out block append `"Early Out"`? -/
def earlyOutFlag (rec : RawRecord) : Bool :=
  match parseClock rec.pm_departure with
  | some t => t < 1020
  | none => false

/-- The `overtime` variable (lines 800, 964–976): precomputed value if
non-empty, otherwise the excess over 8 h (480 minutes) of worked + OT time,
formatted, or `""`. -/
def overtimeStr (rec : RawRecord) : String :=
  if rec.overtime_hours_excel = "" then
    (if 480 < totalForOtMinutes rec then fmtHM (totalForOtMinutes rec - 480)
     else "")
  else rec.overtime_hours_excel

/-- Did the overtime block append `"Overtime"`? -/
def overtimeFlag (rec : RawRecord) : Bool :=
  rec.overtime_hours_excel = "" && 480 < totalForOtMinutes rec

/-- The `remarks` accumulator after the three appends, in program order. -/
def remarksStr (rec : RawRecord) : String :=
  addRemark
    (addRemark (addRemark "" (lateFlag rec) "Late") (earlyOutFlag rec)
      "Early Out")
    (overtimeFlag rec) "Overtime"

/-- The `totalHours` variable (lines 801, 978–990). -/
def totalHoursStr (rec : RawRecord) : String :=
  if rec.total_hours_excel = "" then
    (if hasWorkEntries rec && 0 < totalForOtMinutes rec then
      fmtHM (totalForOtMinutes rec)
     else "")
  else rec.total_hours_excel

/-- Value of the `undertime_hours` / `undertime_minutes` pair: in JS these
variables hold either `""`, a number, or a weekday-name string. -/
inductive UtVal
  | blank
  | nums (h m : Nat)
  | label (s : String)
deriving DecidableEq

/-- `String(undertime_hours)` and `String(undertime_minutes)`. -/
def utStrings : UtVal → String × String
  | .blank => ("", "")
  | .nums h m => (toString h, toString m)
  | .label s => (s, s)

/-- The numeric weekday computation shared by both calculators:
`max(480 - workedMinutes, 0)` split into hours and minutes, `blank` when
zero (lines 913–923). -/
def undertimeComputed (rec : RawRecord) : UtVal :=
  let w := workedMinutes rec
  if w < 480 then .nums ((480 - w) / 60) ((480 - w) % 60) else .blank

/-- Undertime of the block-format calculator (uploadRoutes.js lines
804–813 and 888–939): a parsed `H:MM` precomputed value wins; otherwise
recompute when any raw time string is set, and on an empty weekend day emit
the weekday name as a sentinel. -/
def utOf (rec : RawRecord) (y m d : Nat) : UtVal :=
  match parseUndertimeExcel rec.undertime_excel with
  | some (h, mm) => .nums h mm
  | none =>
    if hasWorkEntries rec then undertimeComputed rec
    else if dayOfWeek y m d = 6 then .label "Saturday"
    else if dayOfWeek y m d = 0 then .label "Sunday"
    else .blank

/-- Undertime of the simple-format calculator (uploadRoutes.js lines
106–115 and 190–236): the recomputation branch additionally requires a
weekday, and the `else if` resets the fields to `""` on weekends — the
weekday-name sentinel of the block calculator is absent here. -/
def utOfSimple (rec : RawRecord) (y m d : Nat) : UtVal :=
  let dow := dayOfWeek y m d
  if parseUndertimeExcel rec.undertime_excel = none ∧ dow ≠ 0 ∧ dow ≠ 6 then
    (if hasWorkEntries rec then undertimeComputed rec else .blank)
  else if dow = 0 ∨ dow = 6 then .blank
  else
    match parseUndertimeExcel rec.undertime_excel with
    | some (h, mm) => .nums h mm
    | none => .blank

/-- `calculateDailyMetricsFromTimes` of utils.js (uploadRoutes.js lines
791–1007), the block-format daily metrics calculator. -/
def calculateDailyMetricsFromTimes (rec : RawRecord) (y m d : Nat) :
    DailyMetrics :=
  { am_arrival := rec.am_arrival
    am_departure := rec.am_departure
    pm_arrival := rec.pm_arrival
    pm_departure := rec.pm_departure
    ot_arrival := rec.ot_arrival
    ot_departure := rec.ot_departure
    total_hours := totalHoursStr rec
    late := lateStr rec
    early_out := earlyOutStr rec
    overtime := overtimeStr rec
    remarks := remarksStr rec
    undertime_hours := (utStrings (utOf rec y m d)).1
    undertime_minutes := (utStrings (utOf rec y m d)).2 }

/-- `calculateDailyMetricsFromTimesForSimpleParser` of
biometricParserSimple.js (uploadRoutes.js lines 91–304): identical to the
block calculator except for the undertime branch structure. -/
def calculateDailyMetricsFromTimesForSimpleParser (rec : RawRecord)
    (y m d : Nat) : DailyMetrics :=
  { am_arrival := rec.am_arrival
    am_departure := rec.am_departure
    pm_arrival := rec.pm_arrival
    pm_departure := rec.pm_departure
    ot_arrival := rec.ot_arrival
    ot_departure := rec.ot_departure
    total_hours := totalHoursStr rec
    late := lateStr rec
    early_out := earlyOutStr rec
    overtime := overtimeStr rec
    remarks := remarksStr rec
    undertime_hours := (utStrings (utOfSimple rec y m d)).1
    undertime_minutes := (utStrings (utOfSimple rec y m d)).2 }

/-- One `timeCard` entry / one `time_records` row: the metrics fields plus
the day number and the `"{DD} {Www}"` caption. -/
structure TimeRec where
  day : Nat := 0
  dateWeekday : String := ""
  am_arrival : String := ""
  am_departure : String := ""
  pm_arrival : String := ""
  pm_departure : String := ""
  ot_arrival : String := ""
  ot_departure : String := ""
  total_hours : String := ""
  late : String := ""
  early_out : String := ""
  overtime : String := ""
  remarks : String := ""
  undertime_hours : String := ""
  undertime_minutes : String := ""
deriving DecidableEq

/-- A parsed employee as assembled by either parser and consumed by the
persistence step. -/
structure Employee where
  userId : String
  name : String
  department : String
  month : String
  attendanceDateRange : String
  tablingDate : String
  timeCard : List TimeRec
deriving DecidableEq

/-- `{day, dateWeekday, ...dailyMetrics}`. -/
def mkTimeRec (d : Nat) (dw : String) (dm : DailyMetrics) : TimeRec :=
  { day := d
    dateWeekday := dw
    am_arrival := dm.am_arrival
    am_departure := dm.am_departure
    pm_arrival := dm.pm_arrival
    pm_departure := dm.pm_departure
    ot_arrival := dm.ot_arrival
    ot_departure := dm.ot_departure
    total_hours := dm.total_hours
    late := dm.late
    early_out := dm.early_out
    overtime := dm.overtime
    remarks := dm.remarks
    undertime_hours := dm.undertime_hours
    undertime_minutes := dm.undertime_minutes }

/-- `"{DD} {Www}"` via `padStart(2, "0")` and the short weekday name. -/
def dateWeekdayCaption (y m d : Nat) : String :=
  padTwo d ++ " " ++ weekdayShort (dayOfWeek y m d)

/-! ## Worksheet model -/

/-- A worksheet cell value (`cell.v`): the sheets carry strings and
numbers; dates and booleans do not occur on the paths modelled here. -/
inductive CellVal
  | str (s : String)
  | num (n : Int)
deriving DecidableEq

/-- A merged range, kept as its `!merges` entry (start/end coordinates). -/
structure MergeRange where
  sr : Nat
  sc : Nat
  er : Nat
  ec : Nat
deriving DecidableEq

/-- A worksheet: its `!ref` bounds (`sheetFullRange.e`), a sparse cell list
and the merged ranges. -/
structure Sheet where
  maxRow : Nat
  maxCol : Nat
  cells : List (Nat × Nat × CellVal)
  merges : List MergeRange
deriving DecidableEq

/-- `sheet[encode_cell {r, c}]?.v`. -/
def cellAt (sh : Sheet) (r c : Nat) : Option CellVal :=
  (sh.cells.find? (fun x => x.1 == r && x.2.1 == c)).map (fun x => x.2.2)

/-- `String(sheet[...]?.v || "")`: the accessor used for all value reads
(note `0` is falsy in JS, hence maps to `""`). -/
def cellTextOrEmpty (sh : Sheet) (r c : Nat) : String :=
  match cellAt sh r c with
  | some (.str s) => s
  | some (.num n) => if n = 0 then "" else toString n
  | none => ""

/-- The formatted header text `String(h || "")` produced by
`sheet_to_json` with `raw: false` for the detection row. -/
def cellDisplayText (sh : Sheet) (r c : Nat) : String :=
  match cellAt sh r c with
  | some (.str s) => s
  | some (.num n) => toString n
  | none => ""

/-- JS truthiness of a raw cell value (`dateWeekdayRaw` check). -/
def cellTruthy : Option CellVal → Bool
  | some (.str s) => s ≠ ""
  | some (.num n) => n ≠ 0
  | none => false

/-- Language of `/^date([\s\r\n]*\/[\s\r\n]*weekday)?$/i` applied to the
trimmed, lower-cased cell text (`findAllCellsByValue`, special branch for
`HEADER_NAMES.DAY`). -/
def dayLabelMatches (t : String) : Bool :=
  if t = "date" then true
  else if strStartsWith t "date" then
    let r := strDropWhile isSpaceLike (strDrop t 4)
    if strStartsWith r "/" then
      strDropWhile isSpaceLike (strDrop r 1) = "weekday"
    else false
  else false

/-- Language of the anchored exact pattern `/^label$/i` on the trimmed,
lower-cased cell text (`target` given lower-cased). -/
def exactLabel (target : String) (t : String) : Bool :=
  t == target

/-- Language of the unanchored-right pattern `/^label/i` used for the
global date-range and tabling-date captions. -/
def startsLabel (target : String) (t : String) : Bool :=
  strStartsWith t target

/-- `findAllCellsByValue`: row-major scan of the rectangle, keeping the
string cells whose trimmed text is non-empty and whose trimmed lower-cased
text is in the pattern's language. -/
def findAllCells (sh : Sheet) (p : String → Bool) (r1 c1 r2 c2 : Nat) :
    List (Nat × Nat) :=
  (List.range' r1 (r2 + 1 - r1)).flatMap (fun r =>
    (List.range' c1 (c2 + 1 - c1)).filterMap (fun c =>
      match cellAt sh r c with
      | some (.str s) =>
        if strTrim s ≠ "" && p (strLower (strTrim s)) then some (r, c)
        else none
      | _ => none))

/-- `findCellByValue`: merged ranges whose top-left corner lies in the
rectangle are checked first (in `!merges` order); otherwise the first
row-major individual match is returned.  For the non-slash labels used
through it (`Name`, `User ID`, `Dept.`) the constructed regex is the
anchored exact pattern. -/
def findCellFirst (sh : Sheet) (p : String → Bool) (r1 c1 r2 c2 : Nat) :
    Option (Nat × Nat) :=
  match sh.merges.find? (fun mg =>
      decide (r1 ≤ mg.sr ∧ mg.sr ≤ r2 ∧ c1 ≤ mg.sc ∧ mg.sc ≤ c2)
        && (match cellAt sh mg.sr mg.sc with
            | some (.str s) => p (strLower (strTrim s))
            | _ => false)) with
  | some mg => some (mg.sr, mg.sc)
  | none => (findAllCells sh p r1 c1 r2 c2).head?

/-! ## Block-format parser (`parseSingleEmployeeAttendanceSheet`) -/

/-- `HEADER_SEARCH_END_ROW`. -/
def headerSearchEndRow : Nat := 100

/-- All day-anchor (`Date` / `Date/Weekday`) header locations, searched
over the full sheet columns and rows `0 .. sheetFullRange.e.r`. -/
def dayHeaderLocations (sh : Sheet) : List (Nat × Nat) :=
  findAllCells sh dayLabelMatches 0 0 sh.maxRow sh.maxCol

/-- Maximum anchor row (`maxDayHeaderRow`), meaningful when anchors
exist. -/
def maxDayHeaderRow (sh : Sheet) : Nat :=
  (dayHeaderLocations sh).foldl (fun a l => max a l.1) 0

/-- Ascending insertion sort. -/
def insertSorted (x : Nat) : List Nat → List Nat
  | [] => [x]
  | y :: ys => if x ≤ y then x :: y :: ys else y :: insertSorted x ys

/-- `Array.from(set).sort((a, b) => a - b)`. -/
def sortNat (l : List Nat) : List Nat :=
  l.foldr insertSorted []

/-- `sortedDayColumnIndices`: the distinct anchor columns, ascending. -/
def sortedDayCols (sh : Sheet) : List Nat :=
  sortNat (dedupNat ((dayHeaderLocations sh).map (fun l => l.2)))

/-- Column spans of the discovered blocks: each block runs from its anchor
column to the column before the next anchor, the last one to the sheet's
last column (`nextBlockDayColIndex` logic, lines 1160–1167). -/
def spansOf : List Nat → Nat → List (Nat × Nat)
  | [], _ => []
  | [c], lastCol => [(c, lastCol)]
  | c :: c' :: rest, lastCol => (c, c' - 1) :: spansOf (c' :: rest) lastCol

/-- The block column spans of a sheet. -/
def blockSpansOf (sh : Sheet) : List (Nat × Nat) :=
  spansOf (sortedDayCols sh) sh.maxCol

/-- `RELATIVE_OFFSETS`-based read of one data row into a raw record, each
field `String(sheet[...]?.v || "").trim()`. -/
def rawRecordAt (sh : Sheet) (r dayCol : Nat) : RawRecord :=
  { am_arrival := strTrim (cellTextOrEmpty sh r (dayCol + 1))
    am_departure := strTrim (cellTextOrEmpty sh r (dayCol + 3))
    pm_arrival := strTrim (cellTextOrEmpty sh r (dayCol + 6))
    pm_departure := strTrim (cellTextOrEmpty sh r (dayCol + 8))
    ot_arrival := strTrim (cellTextOrEmpty sh r (dayCol + 10))
    ot_departure := strTrim (cellTextOrEmpty sh r (dayCol + 12))
    late_excel := strTrim (cellTextOrEmpty sh r (dayCol + 13))
    undertime_excel := strTrim (cellTextOrEmpty sh r (dayCol + 14))
    overtime_hours_excel := strTrim (cellTextOrEmpty sh r (dayCol + 19))
    total_hours_excel := strTrim (cellTextOrEmpty sh r (dayCol + 20)) }

/-- Day number extracted from a truthy day cell:
`String(v).match(/^(\d+)/)` with `parseInt`, falling back to the numeric
value (negative numbers fail the later `day >= 1` check either way). -/
def dayNumberOf : Option CellVal → Option Nat
  | some (.str s) => parseIntLeading s
  | some (.num n) => if 1 ≤ n then some n.toNat else none
  | none => none

/-- Downward scan of a block's data rows (lines 1316–1443): stop at the
first non-truthy day cell after the first data row; keep rows whose day
number lies in `1 .. dim`.  `fuel` counts the remaining rows up to
`sheetFullRange.e.r`. -/
def scanDays (sh : Sheet) (dayCol dim firstRow : Nat) :
    Nat → Nat → List (Nat × RawRecord)
  | _, 0 => []
  | r, fuel + 1 =>
    let raw := cellAt sh r dayCol
    if ¬cellTruthy raw ∧ firstRow < r then []
    else
      let rest := scanDays sh dayCol dim firstRow (r + 1) fuel
      if cellTruthy raw then
        match dayNumberOf raw with
        | some d =>
          if 1 ≤ d ∧ d ≤ dim then (d, rawRecordAt sh r dayCol) :: rest
          else rest
        | none => rest
      else rest

/-- `dailyExcelRecords.get(day)`: a JS `Map.set` in scan order keeps the
last record written for a day. -/
def lastWithDay (recs : List (Nat × RawRecord)) (d : Nat) :
    Option RawRecord :=
  recs.foldl (fun acc r => if r.1 = d then some r.2 else acc) none

/-- The dense day loop (lines 1450–1483): one `TimeRec` per day `1 .. dim`
with metrics computed from the scanned record or an empty one. -/
def blockTimeCard (y m dim : Nat) (recs : List (Nat × RawRecord)) :
    List TimeRec :=
  (List.range' 1 dim).map (fun d =>
    mkTimeRec d (dateWeekdayCaption y m d)
      (calculateDailyMetricsFromTimes ((lastWithDay recs d).getD {}) y m d))

/-- Per-sheet context shared by every block: the report month, the two
global captions and `maxDayHeaderRow`. -/
structure BlockCtx where
  month : String
  attendanceDateRange : String
  tablingDate : String
  maxHdrRow : Nat
deriving DecidableEq

/-- Header-adjacent value: the trimmed text of the cell right of the first
`findCellByValue` hit inside rows `0 .. 100` of the block's column span. -/
def extractAdjacent (sh : Sheet) (p : String → Bool) (c1 c2 : Nat) :
    String :=
  match findCellFirst sh p 0 c1 headerSearchEndRow c2 with
  | some (r, c) => strTrim (cellTextOrEmpty sh r (c + 1))
  | none => ""

/-- The `Name`-header-adjacent value of a block span. -/
def extractBlockName (sh : Sheet) (sp : Nat × Nat) : String :=
  extractAdjacent sh (exactLabel "name") sp.1 sp.2

/-- The `User ID`-header-adjacent value of a block span. -/
def extractBlockUserId (sh : Sheet) (sp : Nat × Nat) : String :=
  extractAdjacent sh (exactLabel "user id") sp.1 sp.2

/-- The `Dept.`-header-adjacent value of a block span. -/
def extractBlockDepartment (sh : Sheet) (sp : Nat × Nat) : String :=
  extractAdjacent sh (exactLabel "dept.") sp.1 sp.2

/-- A block is kept only when both its name and its user id are
non-empty (lines 1266–1274). -/
def blockAccepted (sh : Sheet) (sp : Nat × Nat) : Bool :=
  !(extractBlockName sh sp == "" || extractBlockUserId sh sp == "")

/-- `timecardDataStartRow`: one row below the lowest `In`/`Out` sub-header
found in rows `maxHdrRow .. maxHdrRow + 5` of the span, else the
`maxHdrRow + 2` fallback (lines 1276–1308). -/
def dataStartRow (sh : Sheet) (ctx : BlockCtx) (sp : Nat × Nat) : Nat :=
  let subs :=
    findAllCells sh (exactLabel "in") ctx.maxHdrRow sp.1
        (ctx.maxHdrRow + 5) sp.2
      ++ findAllCells sh (exactLabel "out") ctx.maxHdrRow sp.1
        (ctx.maxHdrRow + 5) sp.2
  if subs.isEmpty then ctx.maxHdrRow + 2
  else (subs.foldl (fun a x => max a x.1) 0) + 1

/-- The employee data of one accepted block (without the accept guard). -/
def blockEmployeeData (sh : Sheet) (ctx : BlockCtx) (sp : Nat × Nat) :
    Employee :=
  let start := dataStartRow sh ctx sp
  let card :=
    match monthPartsOpt ctx.month with
    | none => []
    | some (y, m) =>
      let dim := daysInMonth y m
      blockTimeCard y m dim (scanDays sh sp.1 dim start start (sh.maxRow + 1 - start))
  { userId := extractBlockUserId sh sp
    name := extractBlockName sh sp
    department := extractBlockDepartment sh sp
    month := ctx.month
    attendanceDateRange := ctx.attendanceDateRange
    tablingDate := ctx.tablingDate
    timeCard := card }

/-- One block of the discovery loop: `none` when the block is skipped for a
missing name or user id. -/
def blockEmployee (sh : Sheet) (ctx : BlockCtx) (sp : Nat × Nat) :
    Option Employee :=
  if blockAccepted sh sp then some (blockEmployeeData sh ctx sp) else none

/-- Shape test for `/^(\d{4}-\d{2})-\d{2}~\d{4}-\d{2}-\d{2}$/` ('0' marks a
digit position). -/
def matchesRangeShape (s : String) : Bool :=
  let pat := "0000-00-00~0000-00-00".toList
  let cs := s.toList
  cs.length = pat.length
    && (cs.zip pat).all (fun cp =>
        if cp.2 = '0' then cp.1.isDigit else cp.1 == cp.2)

/-- `reportMonth`: the leading `YYYY-MM` of a matching date range, else the
current calendar month (`today`, the only impure input, passed in). -/
def reportMonthOf (adr : String) (today : Nat × Nat) : String :=
  if matchesRangeShape adr then strTake adr 7
  else toString today.1 ++ "-" ++ padTwo today.2

/-- The global attendance date range: value right of the first prefix match
of `"Date"` in rows `0 .. 100` (lines 1042–1056). -/
def attendanceDateRangeOf (sh : Sheet) : String :=
  match (findAllCells sh (startsLabel "date") 0 0 headerSearchEndRow
      sh.maxCol).head? with
  | some (r, c) => strTrim (cellTextOrEmpty sh r (c + 1))
  | none => ""

/-- Civil date from days since 1970-01-01 (standard era decomposition). -/
def ymdOfDays (z0 : Nat) : Nat × Nat × Nat :=
  let z := z0 + 719468
  let era := z / 146097
  let doe := z % 146097
  let yoe := (doe - doe / 1460 + doe / 36524 - doe / 146096) / 365
  let y := yoe + era * 400
  let doy := doe - (365 * yoe + yoe / 4 - yoe / 100)
  let mp := (5 * doy + 2) / 153
  let d := doy - (153 * mp + 2) / 5 + 1
  let m := if mp < 10 then mp + 3 else mp - 9
  ((if m ≤ 2 then y + 1 else y), m, d)

/-- `parseExcelDate(n).toISOString().split("T")[0]` for a whole-day Excel
serial (modelled for serials at or after the 1970 epoch, which covers the
dates the sheets carry). -/
def excelSerialToIso (n : Int) : String :=
  if n < 25569 then ""
  else
    let ymd := ymdOfDays (n - 25569).toNat
    toString ymd.1 ++ "-" ++ padTwo ymd.2.1 ++ "-" ++ padTwo ymd.2.2

/-- The tabling date: value right of the first prefix match of
`"Tabling date:"`; a numeric cell goes through the Excel-serial
conversion (lines 1058–1078). -/
def tablingDateOf (sh : Sheet) : String :=
  match (findAllCells sh (startsLabel "tabling date:") 0 0
      headerSearchEndRow sh.maxCol).head? with
  | some (r, c) =>
    match cellAt sh r (c + 1) with
    | some (.num n) => excelSerialToIso n
    | some (.str s) => strTrim s
    | none => ""
  | none => ""

/-- The per-sheet context: global captions, derived report month, and the
maximum day-anchor row. -/
def sheetCtx (sh : Sheet) (today : Nat × Nat) : BlockCtx :=
  { month := reportMonthOf (attendanceDateRangeOf sh) today
    attendanceDateRange := attendanceDateRangeOf sh
    tablingDate := tablingDateOf sh
    maxHdrRow := maxDayHeaderRow sh }

/-- `parseSingleEmployeeAttendanceSheet` (uploadRoutes.js lines
1015–1492): global captions, report month, block discovery, then one
employee per accepted block. -/
def parseSingleEmployeeAttendanceSheet (sh : Sheet) (today : Nat × Nat) :
    List Employee :=
  if (dayHeaderLocations sh).isEmpty then []
  else (blockSpansOf sh).filterMap (blockEmployee sh (sheetCtx sh today))

/-! ## Simple-format parser (`parseSimpleBiometric`) -/

/-- The `Date` column value of a flat row: either a `Date` object produced
by `cellDates: true` (kept as its local calendar components) or a cell
string.  An empty value is falsy and makes the row skipped. -/
inductive DateVal
  | obj (y m d : Nat)
  | str (s : String)
deriving DecidableEq

/-- One flat row of the simple biometric sheet
(`Name | Date | Timetable | Clock In | Clock Out`). -/
structure SimpleRow where
  name : String
  date : Option DateVal
  timetable : String
  clockIn : String
  clockOut : String
deriving DecidableEq

/-- `parseDdMmYyyyDateString` (uploadRoutes.js lines 55–77): split on `/`,
`parseInt` each part, range checks, and the `Date`-constructor round-trip
that rejects impossible dates such as Feb 30. -/
def parseDdMmYyyyDateString (s : String) : Option (Nat × Nat × Nat) :=
  match strSplitOnChar '/' s with
  | [ds, ms, ys] =>
    match parseIntLeading ds, parseIntLeading ms, parseIntLeading ys with
    | some d, some m, some y =>
      if 1 ≤ m ∧ m ≤ 12 ∧ 1 ≤ d ∧ d ≤ 31 ∧ 1900 ≤ y ∧ y ≤ 2100 then
        (if d ≤ daysInMonth y m then some (y, m, d) else none)
      else none
    | _, _, _ => none
  | _ => none

/-- Row pre-processing (lines 326–364): trim the name, upper-case the
timetable, skip rows missing name/date/timetable, and resolve the date.
The generic `new Date(string)` fallback for non-`DD/MM/YYYY` strings is a
locale-dependent JS built-in and is not modelled: rows that would reach it
are treated as skipped here. -/
def resolveRow (row : SimpleRow) :
    Option (String × Nat × Nat × Nat × String × String × String) :=
  let nm := strTrim row.name
  let tt := strUpper (strTrim row.timetable)
  let ci := strTrim row.clockIn
  let co := strTrim row.clockOut
  let dateTruthy :=
    match row.date with
    | some (.str s) => s ≠ ""
    | some (.obj _ _ _) => true
    | none => false
  if nm == "" || !dateTruthy || tt == "" then none
  else
    match row.date with
    | some (.obj y m d) => some (nm, y, m, d, tt, ci, co)
    | some (.str s) =>
      match parseDdMmYyyyDateString (strTrim s) with
      | some (y, m, d) => some (nm, y, m, d, tt, ci, co)
      | none => none
    | none => none

/-- An all-empty 31-card slot with its day number and weekday caption
(lines 369–390; note day 31 of a short month gets the weekday of the
normalized overflow date, as in JS). -/
def blankSlot (y m d : Nat) : TimeRec :=
  { day := d, dateWeekday := dateWeekdayCaption y m d }

/-- `Array(31)`-based skeleton: always 31 slots, days 1 .. 31. -/
def initialTimeCard (y m : Nat) : List TimeRec :=
  (List.range' 1 31).map (blankSlot y m)

/-- The employee map entry created on first sight of a key
(lines 392–400). -/
def freshEmployee (nm : String) (y m : Nat) : Employee :=
  { userId := nm
    name := nm
    department := ""
    month := toString y ++ "-" ++ padTwo m
    attendanceDateRange := ""
    tablingDate := ""
    timeCard := initialTimeCard y m }

/-- `` `${name}-${year}-${month}` `` (month zero-padded). -/
def simpleKey (nm : String) (y m : Nat) : String :=
  nm ++ "-" ++ toString y ++ "-" ++ padTwo m

/-- Write the clock pair into the AM or PM fields of a slot
(lines 408–414); other timetable values change nothing. -/
def applySession (tt ci co : String) (r : TimeRec) : TimeRec :=
  if tt = "AM" then { r with am_arrival := ci, am_departure := co }
  else if tt = "PM" then { r with pm_arrival := ci, pm_departure := co }
  else r

/-- `timeCard[day - 1] = f(timeCard[day - 1])` under the
`1 ≤ day ≤ timeCard.length` guard of line 405. -/
def setCardSlot (card : List TimeRec) (d : Nat) (f : TimeRec → TimeRec) :
    List TimeRec :=
  match card.get? (d - 1) with
  | some r => card.set (d - 1) (f r)
  | none => card

/-- Update the unique map entry with the given key. -/
def mapAssocUpdate (l : List (String × Employee)) (k : String)
    (f : Employee → Employee) : List (String × Employee) :=
  l.map (fun kv => if kv.1 == k then (kv.1, f kv.2) else kv)

/-- Process one flat row against the insertion-ordered employee map
(lines 323–423). -/
def stepRow (acc : List (String × Employee)) (row : SimpleRow) :
    List (String × Employee) :=
  match resolveRow row with
  | none => acc
  | some (nm, y, m, d, tt, ci, co) =>
    let key := simpleKey nm y m
    let acc1 :=
      if (acc.find? (fun kv => kv.1 == key)).isSome then acc
      else acc ++ [(key, freshEmployee nm y m)]
    mapAssocUpdate acc1 key (fun e =>
      if 1 ≤ d ∧ d ≤ e.timeCard.length then
        { e with timeCard := setCardSlot e.timeCard d (applySession tt ci co) }
      else e)

/-- The raw record handed to the simple calculator for a slot: the slot's
six raw strings; the `*_excel` keys do not exist on slot objects. -/
def rawOfSlot (r : TimeRec) : RawRecord :=
  { am_arrival := r.am_arrival
    am_departure := r.am_departure
    pm_arrival := r.pm_arrival
    pm_departure := r.pm_departure
    ot_arrival := r.ot_arrival
    ot_departure := r.ot_departure }

/-- `{...record, ...calculatedMetrics}`: day and caption survive from the
slot, everything else comes from the calculator (lines 434–441). -/
def mergeMetrics (r : TimeRec) (dm : DailyMetrics) : TimeRec :=
  mkTimeRec r.day r.dateWeekday dm

/-- The final per-employee pass of `parseSimpleBiometric` (lines
426–444): re-parse the month key and run the simple calculator over every
slot. -/
def finalizeSimpleEmployee (e : Employee) : Employee :=
  let ym := (monthPartsOpt e.month).getD (0, 0)
  { e with
    timeCard := e.timeCard.map (fun r =>
      mergeMetrics r
        (calculateDailyMetricsFromTimesForSimpleParser (rawOfSlot r) ym.1
          ym.2 r.day)) }

/-- `parseSimpleBiometric` (uploadRoutes.js lines 313–445) on the flat
rows of the first worksheet. -/
def parseSimpleBiometric (rows : List SimpleRow) : List Employee :=
  ((rows.foldl stepRow []).map (fun kv => finalizeSimpleEmployee kv.2))

/-! ## Format detection (`isSimpleBiometricFormat`) and dispatch -/

/-- The required header set of the flat format. -/
def requiredSimpleHeaders : List String :=
  ["name", "date", "timetable", "clock in", "clock out"]

/-- Row-1 texts of columns A .. Z (`sheet_to_json` over `A1:Z1`). -/
def headerTexts (sh : Sheet) : List String :=
  (List.range 26).map (fun c => cellDisplayText sh 0 c)

/-- `isSimpleBiometricFormat` (uploadRoutes.js lines 453–468): every
required label occurs among the trimmed, lower-cased row-1 header texts. -/
def isSimpleBiometricFormat (sh : Sheet) : Bool :=
  requiredSimpleHeaders.all (fun req =>
    ((headerTexts sh).map (fun h => strLower (strTrim h))).contains req)

/-- Parser selection of `loadMultiSheetEmployeeAttendance`
(lines 1530–1556). -/
inductive SheetFormat
  | simple
  | block
deriving DecidableEq

/-- `detect(firstSheet)`. -/
def detectFormat (sh : Sheet) : SheetFormat :=
  if isSimpleBiometricFormat sh then .simple else .block

/-! ## Time summary (`calculateEmployeeTimeSummary`, attendance
controller) -/

/-- The raw record fed back into the calculator from a stored `timeCard`
record: the stored computed columns are named `late`/`overtime`/… rather
than `*_excel`, so the calculator sees no precomputed fields. -/
def rawOfStored (r : TimeRec) : RawRecord :=
  rawOfSlot r

/-- `dailyRecordMap.get(day)` over a stored time card (a `Map.set` loop
keeps the last record per day). -/
def lookupDay (recs : List TimeRec) (d : Nat) : Option TimeRec :=
  recs.foldl (fun acc r => if r.day = d then some r else acc) none

/-- `calculateEmployeeTimeSummary` (controllers/attendanceController.js):
recompute the metrics of every day `1 .. daysInMonth` of the given month
from the employee's stored time card.  A `none` employee or empty month
yields `([], 0)`; an unparseable month makes the JS loop run zero times
(`NaN` day count, modelled as day count 0). -/
def calculateEmployeeTimeSummary (employee : Option Employee)
    (month : String) : List TimeRec × Nat :=
  match employee with
  | none => ([], 0)
  | some emp =>
    if month = "" then ([], 0)
    else
      match monthPartsOpt month with
      | none => ([], 0)
      | some (y, m) =>
        let dim := daysInMonth y m
        (((List.range' 1 dim).map (fun d =>
          mkTimeRec d (dateWeekdayCaption y m d)
            (calculateDailyMetricsFromTimes
              ((lookupDay emp.timeCard d).map rawOfStored |>.getD {}) y m
              d))), dim)

/-! ## Persistence (`loadMultiSheetEmployeeAttendance`, lines 1557–1649)

The SQLite store is modelled as the list of `employees` rows, the
`time_records` table grouped by `employee_id` (a function, since every
query filters on `employee_id`), and the AUTOINCREMENT counter. -/

/-- One row of the `employees` table. -/
structure EmployeeRow where
  id : Nat
  userId : String
  name : String
  department : String
  month : String
  attendanceDateRange : String
  tablingDate : String
deriving DecidableEq

/-- The database state. -/
structure Db where
  employees : List EmployeeRow
  timeRecords : Nat → List TimeRec
  nextId : Nat

/-- The composite key `(userId, name, month)`. -/
def empKeyOf (e : Employee) : String × String × String :=
  (e.userId, e.name, e.month)

/-- The composite key of a stored row. -/
def rowKeyOf (r : EmployeeRow) : String × String × String :=
  (r.userId, r.name, r.month)

/-- `WHERE userId = ? AND name = ? AND month = ?`. -/
def keyMatches (e : Employee) (r : EmployeeRow) : Bool :=
  rowKeyOf r == empKeyOf e

/-- `SELECT id FROM employees WHERE … .get(…)`: the first matching row
(the schema's UNIQUE constraint makes it the only one). -/
def findEmployeeRow (rows : List EmployeeRow) (e : Employee) :
    Option EmployeeRow :=
  match rows with
  | [] => none
  | r :: rs => if keyMatches e r then some r else findEmployeeRow rs e

/-- `UPDATE employees SET department = ?, attendanceDateRange = ?,
tablingDate = ? WHERE id = ?` applied to one row. -/
def applyEmployeeUpdate (e : Employee) (r : EmployeeRow) : EmployeeRow :=
  { r with
    department := e.department
    attendanceDateRange := e.attendanceDateRange
    tablingDate := e.tablingDate }

/-- The UPDATE hits the row whose id was selected: the first row matching
the composite key. -/
def updateEmployeeRows (e : Employee) :
    List EmployeeRow → List EmployeeRow
  | [] => []
  | r :: rs =>
    if keyMatches e r then applyEmployeeUpdate e r :: rs
    else r :: updateEmployeeRows e rs

/-- `INSERT INTO employees …` with the AUTOINCREMENT id. -/
def newEmployeeRow (id : Nat) (e : Employee) : EmployeeRow :=
  { id := id
    userId := e.userId
    name := e.name
    department := e.department
    month := e.month
    attendanceDateRange := e.attendanceDateRange
    tablingDate := e.tablingDate }

/-- The insertion guard of the time-record loop (lines 1616–1624): at
least one of the six raw time strings must be non-empty. -/
def hasRawTime (t : TimeRec) : Bool :=
  t.am_arrival ≠ "" || t.am_departure ≠ "" || t.pm_arrival ≠ ""
    || t.pm_departure ≠ "" || t.ot_arrival ≠ "" || t.ot_departure ≠ ""

/-- The day rows actually inserted for an employee. -/
def storedRecords (e : Employee) : List TimeRec :=
  e.timeCard.filter hasRawTime

/-- The employee id the day records are written under. -/
def upsertTargetId (db : Db) (e : Employee) : Nat :=
  match findEmployeeRow db.employees e with
  | some r => r.id
  | none => db.nextId

/-- One iteration of the persistence loop (lines 1572–1648): find by
composite key, update or insert the employee row, then replace all of that
employee's day rows (`DELETE … WHERE employee_id = ?` followed by the
filtered inserts). -/
def upsertEmployee (db : Db) (e : Employee) : Db :=
  match findEmployeeRow db.employees e with
  | some r =>
    { employees := updateEmployeeRows e db.employees
      timeRecords := Function.update db.timeRecords r.id (storedRecords e)
      nextId := db.nextId }
  | none =>
    { employees := db.employees ++ [newEmployeeRow db.nextId e]
      timeRecords :=
        Function.update db.timeRecords db.nextId (storedRecords e)
      nextId := db.nextId + 1 }

/-- The full persistence transaction over the parsed employee list. -/
def storeAllEmployees (db : Db) (es : List Employee) : Db :=
  es.foldl upsertEmployee db

/-- Ids are unique and below the AUTOINCREMENT counter — the state of
affairs SQLite's PRIMARY KEY AUTOINCREMENT maintains. -/
def WfDb (db : Db) : Prop :=
  (∀ r ∈ db.employees, r.id < db.nextId)
    ∧ (db.employees.map (fun r => r.id)).Nodup

instance (db : Db) : Decidable (WfDb db) := by
  unfold WfDb; infer_instance

/-! ## Read-back (`getEmployeeDataFromDb`, lines 1727–1784) -/

/-- The synthesized display record for a day with no stored row: empty
fields except the weekend long-weekday-name undertime pair
(lines 1767–1783). -/
def defaultDisplayDay (y m d : Nat) : TimeRec :=
  let w := dayOfWeek y m d
  let isWeekend := w = 0 ∨ w = 6
  { day := d
    dateWeekday := dateWeekdayCaption y m d
    undertime_hours := if isWeekend then weekdayLong w else ""
    undertime_minutes := if isWeekend then weekdayLong w else "" }

/-- `formDataForDisplay[day]`: the stored record when present, else the
synthesized default. -/
def formDisplayDay (recs : List TimeRec) (y m d : Nat) : TimeRec :=
  (lookupDay recs d).getD (defaultDisplayDay y m d)

/-! ## Concrete fixtures used by witnesses and counterexamples -/

/-- An entirely empty raw day record. -/
def emptyRawRecord : RawRecord := {}

/-- AM 08:00–12:00, PM 13:00–18:30: 9.5 worked hours. -/
def otExampleRecord : RawRecord :=
  { am_arrival := "08:00"
    am_departure := "12:00"
    pm_arrival := "13:00"
    pm_departure := "18:30" }

/-- AM worked 4 h plus a non-`H:MM` precomputed undertime cell. -/
def utExampleRecord : RawRecord :=
  { am_arrival := "08:00"
    am_departure := "12:00"
    undertime_excel := "30" }

/-- A record with all four precomputed columns present. -/
def allPrecomputedRecord : RawRecord :=
  { am_arrival := "08:15"
    am_departure := "12:00"
    pm_arrival := "13:00"
    pm_departure := "16:00"
    late_excel := "1h 00m"
    undertime_excel := "4:05"
    overtime_hours_excel := "2h 00m"
    total_hours_excel := "9h 00m" }

/-- `addRemark` with a fired flag. -/
theorem addRemark_true (r s : String) :
    addRemark r true s = if r = "" then s else r ++ ", " ++ s := rfl

/-! ## C2 — weekend undertime sentinel -/

/-- C2 (corrected).  On a weekend day whose raw record has no non-empty
time field and no precomputed undertime, the block-format calculator
returns the literal weekday name in both undertime fields, but the
simple-format calculator returns the empty string in both — the sentinel
exists on only one of the two parser paths. -/
theorem c2_weekend_sentinel (rec : RawRecord) (y m d : Nat)
    (h1 : rec.am_arrival = "") (h2 : rec.am_departure = "")
    (h3 : rec.pm_arrival = "") (h4 : rec.pm_departure = "")
    (h5 : rec.ot_arrival = "") (h6 : rec.ot_departure = "")
    (h7 : rec.undertime_excel = "")
    (hw : dayOfWeek y m d = 0 ∨ dayOfWeek y m d = 6) :
    ((calculateDailyMetricsFromTimes rec y m d).undertime_hours
        = weekdayLong (dayOfWeek y m d)
      ∧ (calculateDailyMetricsFromTimes rec y m d).undertime_minutes
        = weekdayLong (dayOfWeek y m d))
    ∧ ((calculateDailyMetricsFromTimesForSimpleParser rec y m
          d).undertime_hours = ""
      ∧ (calculateDailyMetricsFromTimesForSimpleParser rec y m
          d).undertime_minutes = "") := by
  have hut : parseUndertimeExcel rec.undertime_excel = none := by
    rw [h7]; rfl
  have hwork : hasWorkEntries rec = false := by
    simp [hasWorkEntries, h1, h2, h3, h4, h5, h6]
  rcases hw with hw | hw
  · constructor
    · constructor <;>
        simp [calculateDailyMetricsFromTimes, utOf, hut, hwork, hw,
          utStrings, weekdayLong]
    · constructor <;>
        simp [calculateDailyMetricsFromTimesForSimpleParser, utOfSimple,
          hut, hwork, hw, utStrings]
  · constructor
    · constructor <;>
        simp [calculateDailyMetricsFromTimes, utOf, hut, hwork, hw,
          utStrings, weekdayLong]
    · constructor <;>
        simp [calculateDailyMetricsFromTimesForSimpleParser, utOfSimple,
          hut, hwork, hw, utStrings]

/-- Witness for `c2_weekend_sentinel` at 2025-04-06, a Sunday. -/
theorem c2_weekend_sentinel_witness :
    ((calculateDailyMetricsFromTimes emptyRawRecord 2025 4
          6).undertime_hours = weekdayLong (dayOfWeek 2025 4 6)
      ∧ (calculateDailyMetricsFromTimes emptyRawRecord 2025 4
          6).undertime_minutes = weekdayLong (dayOfWeek 2025 4 6))
    ∧ ((calculateDailyMetricsFromTimesForSimpleParser emptyRawRecord 2025 4
          6).undertime_hours = ""
      ∧ (calculateDailyMetricsFromTimesForSimpleParser emptyRawRecord 2025
          4 6).undertime_minutes = "") :=
  c2_weekend_sentinel emptyRawRecord 2025 4 6 rfl rfl rfl rfl rfl rfl rfl
    (by decide)

/-- C2 counterexample: 2025-04-05 is a Saturday, yet the simple-format
calculator leaves both undertime fields empty rather than `"Saturday"`,
refuting the claim for the simple parser path. -/
theorem c2_counterexample :
    dayOfWeek 2025 4 5 = 6
    ∧ (calculateDailyMetricsFromTimesForSimpleParser emptyRawRecord 2025 4
        5).undertime_hours = ""
    ∧ (calculateDailyMetricsFromTimesForSimpleParser emptyRawRecord 2025 4
        5).undertime_minutes = ""
    ∧ ("" : String) ≠ "Saturday" := by
  refine ⟨by decide, by decide, by decide, by decide⟩

/-! ## C3 — overtime rule -/

/-- C3 (corrected).  Without a precomputed overtime field, overtime is the
excess of AM + PM + OT worked minutes over 480 formatted `{H}h {MM}m` with
`"Overtime"` ending the remarks, and is empty otherwise.  (The spec's
concrete example is wrong: see `c3_counterexample`.) -/
theorem c3_overtime_rule (rec : RawRecord) (y m d : Nat)
    (h : rec.overtime_hours_excel = "") :
    (480 < totalForOtMinutes rec →
      (calculateDailyMetricsFromTimes rec y m d).overtime
          = fmtHM (totalForOtMinutes rec - 480)
        ∧ ∃ p, (calculateDailyMetricsFromTimes rec y m d).remarks
          = p ++ "Overtime")
    ∧ (totalForOtMinutes rec ≤ 480 →
      (calculateDailyMetricsFromTimes rec y m d).overtime = "") := by
  constructor
  · intro hgt
    have hflag : overtimeFlag rec = true := by
      simp [overtimeFlag, h, hgt]
    constructor
    · simp [calculateDailyMetricsFromTimes, overtimeStr, h, hgt]
    · show ∃ p, remarksStr rec = p ++ "Overtime"
      unfold remarksStr
      rw [hflag, addRemark_true]
      by_cases hr :
          addRemark (addRemark "" (lateFlag rec) "Late") (earlyOutFlag rec)
            "Early Out" = ""
      · exact ⟨"", by rw [if_pos hr]; rfl⟩
      · exact ⟨_, if_neg hr⟩
  · intro hle
    simp [calculateDailyMetricsFromTimes, overtimeStr, h,
      Nat.not_lt.mpr hle]

/-- Witness for `c3_overtime_rule` on the 9.5-hour example record. -/
theorem c3_overtime_rule_witness :
    480 < totalForOtMinutes otExampleRecord
    ∧ ((calculateDailyMetricsFromTimes otExampleRecord 2025 4 1).overtime
        = fmtHM (totalForOtMinutes otExampleRecord - 480)
      ∧ ∃ p, (calculateDailyMetricsFromTimes otExampleRecord 2025 4
          1).remarks = p ++ "Overtime") :=
  ⟨by decide, (c3_overtime_rule otExampleRecord 2025 4 1 rfl).1 (by decide)⟩

/-- C3 counterexample: AM 08:00–12:00 with PM 13:00–18:30 yields
`"1h 30m"` of overtime (9.5 worked hours, 1.5 in excess of 8), not the
`"0h 30m"` the claim asserts. -/
theorem c3_counterexample :
    (calculateDailyMetricsFromTimes otExampleRecord 2025 4 1).overtime
        = "1h 30m"
    ∧ ("1h 30m" : String) ≠ "0h 30m" := by
  refine ⟨by decide, by decide⟩

/-! ## C4 — precomputed-field precedence -/

/-- C4 (corrected).  A non-empty precomputed `late`, `overtime` or
`total_hours` cell is emitted verbatim and suppresses recomputation of
that field; a precomputed undertime cell takes precedence only when it
matches `H:MM`, in which case its parsed hour and minute components are
emitted.  (A non-empty undertime cell in any other shape is ignored: see
`c4_counterexample`.) -/
theorem c4_precomputed_precedence (rec : RawRecord) (y m d : Nat) :
    (rec.late_excel ≠ "" →
      (calculateDailyMetricsFromTimes rec y m d).late = rec.late_excel)
    ∧ (rec.overtime_hours_excel ≠ "" →
      (calculateDailyMetricsFromTimes rec y m d).overtime
        = rec.overtime_hours_excel)
    ∧ (rec.total_hours_excel ≠ "" →
      (calculateDailyMetricsFromTimes rec y m d).total_hours
        = rec.total_hours_excel)
    ∧ (∀ h mm, parseUndertimeExcel rec.undertime_excel = some (h, mm) →
      (calculateDailyMetricsFromTimes rec y m d).undertime_hours
          = toString h
        ∧ (calculateDailyMetricsFromTimes rec y m d).undertime_minutes
          = toString mm) := by
  refine ⟨fun hl => ?_, fun ho => ?_, fun ht => ?_, fun h mm hu => ?_⟩
  · simp [calculateDailyMetricsFromTimes, lateStr, hl]
  · simp [calculateDailyMetricsFromTimes, overtimeStr, ho]
  · simp [calculateDailyMetricsFromTimes, totalHoursStr, ht]
  · constructor <;>
      simp [calculateDailyMetricsFromTimes, utOf, hu, utStrings]

/-- Witness for `c4_precomputed_precedence` on a record carrying all four
precomputed cells. -/
theorem c4_precomputed_precedence_witness :
    (calculateDailyMetricsFromTimes allPrecomputedRecord 2025 4 1).late
        = allPrecomputedRecord.late_excel
    ∧ (calculateDailyMetricsFromTimes allPrecomputedRecord 2025 4
        1).overtime = allPrecomputedRecord.overtime_hours_excel
    ∧ (calculateDailyMetricsFromTimes allPrecomputedRecord 2025 4
        1).total_hours = allPrecomputedRecord.total_hours_excel
    ∧ (calculateDailyMetricsFromTimes allPrecomputedRecord 2025 4
        1).undertime_hours = toString 4
    ∧ (calculateDailyMetricsFromTimes allPrecomputedRecord 2025 4
        1).undertime_minutes = toString 5 := by
  have T := c4_precomputed_precedence allPrecomputedRecord 2025 4 1
  exact ⟨T.1 (by decide), T.2.1 (by decide), T.2.2.1 (by decide),
    (T.2.2.2 4 5 (by decide)).1, (T.2.2.2 4 5 (by decide)).2⟩

/-- C4 counterexample: `undertime_excel = "30"` is present and non-empty,
yet the calculator ignores it and recomputes undertime from the raw times
(4 hours worked → `"4"` hours, `"0"` minutes), refuting the undertime part
of the claim. -/
theorem c4_counterexample :
    utExampleRecord.undertime_excel = "30"
    ∧ (calculateDailyMetricsFromTimes utExampleRecord 2025 4
        1).undertime_hours = "4"
    ∧ (calculateDailyMetricsFromTimes utExampleRecord 2025 4
        1).undertime_minutes = "0"
    ∧ (calculateDailyMetricsFromTimes utExampleRecord 2025 4
        1).undertime_hours ≠ "30"
    ∧ (calculateDailyMetricsFromTimes utExampleRecord 2025 4
        1).undertime_minutes ≠ "30" := by
  refine ⟨by decide, by decide, by decide, by decide, by decide⟩

/-! ## C6 — block discovery spans -/

/-- C6 (confirmed).  When the day-anchor label occurs in exactly columns
B, Q and AF (indices 1, 16, 31), block discovery produces exactly three
blocks with column spans `[B, P]`, `[Q, AE]` and `[AF, last column]`. -/
theorem c6_block_spans (sh : Sheet)
    (h : sortedDayCols sh = [1, 16, 31]) :
    blockSpansOf sh = [(1, 15), (16, 30), (31, sh.maxCol)] := by
  unfold blockSpansOf
  rw [h]
  rfl

/-- A sheet with day anchors in columns B, Q and AF and last column AO. -/
def threeBlockSheet : Sheet :=
  { maxRow := 3
    maxCol := 40
    cells := [(2, 1, .str "Date/Weekday"), (2, 16, .str "Date/Weekday"),
      (2, 31, .str "Date")]
    merges := [] }

/-- Witness for `c6_block_spans` on `threeBlockSheet`. -/
theorem c6_block_spans_witness :
    sortedDayCols threeBlockSheet = [1, 16, 31]
    ∧ blockSpansOf threeBlockSheet
      = [(1, 15), (16, 30), (31, threeBlockSheet.maxCol)] :=
  ⟨by decide, c6_block_spans threeBlockSheet (by decide)⟩

/-! ## C7 — format detection -/

/-- C7 (confirmed).  A workbook is classified simple iff the trimmed,
lower-cased row-1 texts of columns A–Z of the first worksheet include all
five labels `name`, `date`, `timetable`, `clock in`, `clock out`; a sheet
missing any of them is classified block. -/
theorem c7_detect_iff (sh : Sheet) :
    detectFormat sh = SheetFormat.simple ↔
      ∀ req ∈ requiredSimpleHeaders, ∃ c, c < 26
        ∧ strLower (strTrim (cellDisplayText sh 0 c)) = req := by
  have hb : isSimpleBiometricFormat sh = true ↔
      ∀ req ∈ requiredSimpleHeaders, ∃ c, c < 26
        ∧ strLower (strTrim (cellDisplayText sh 0 c)) = req := by
    simp only [isSimpleBiometricFormat, headerTexts, List.all_eq_true,
      List.contains, List.elem_eq_mem, decide_eq_true_eq, List.mem_map,
      List.mem_range]
    constructor
    · intro hall req hreq
      rcases hall req hreq with ⟨h, ⟨c, hc, rfl⟩, rfl⟩
      exact ⟨c, hc, rfl⟩
    · intro hall req hreq
      rcases hall req hreq with ⟨c, hc, hv⟩
      exact ⟨cellDisplayText sh 0 c, ⟨c, hc, rfl⟩, hv⟩
  unfold detectFormat
  by_cases hs : isSimpleBiometricFormat sh
  · simp only [hs, if_true, true_iff]
    exact hb.mp hs
  · simp only [hs, if_false]
    constructor
    · intro hcontra
      cases hcontra
    · intro hall
      exact absurd (hb.mpr hall) hs

/-! ## Dense time-card lemmas -/

/-- Mapping a day-preserving record builder over a day list and projecting
the day back is the identity. -/
theorem map_day_of_day_eq :
    ∀ (l : List Nat) (g : Nat → TimeRec), (∀ d, (g d).day = d) →
      (l.map g).map (fun r => r.day) = l
  | [], _, _ => rfl
  | d :: l, g, hg => by
    simp only [List.map_cons, List.cons.injEq]
    exact ⟨hg d, map_day_of_day_eq l g hg⟩

/-- The dense block time card is numbered `1 .. dim`. -/
theorem blockTimeCard_days (y m dim : Nat) (recs : List (Nat × RawRecord)) :
    (blockTimeCard y m dim recs).map (fun r => r.day)
      = List.range' 1 dim :=
  map_day_of_day_eq _ _ (fun _ => rfl)

/-- Setting an index back to the value it already holds is the
identity. -/
theorem set_of_get? {α : Type} :
    ∀ (l : List α) (i : Nat) (v : α), l.get? i = some v → l.set i v = l
  | [], _, _, h => by cases h
  | a :: l, 0, v, h => by
    injection h with h
    rw [← h]
    rfl
  | a :: l, i + 1, v, h => by
    show a :: l.set i v = a :: l
    rw [set_of_get? l i v h]

/-- `applySession` never touches the day number. -/
theorem applySession_day (tt ci co : String) (r : TimeRec) :
    (applySession tt ci co r).day = r.day := by
  unfold applySession
  split
  · rfl
  · split <;> rfl

/-- `setCardSlot` with a day-preserving edit keeps the day sequence. -/
theorem setCardSlot_days (card : List TimeRec) (d : Nat)
    (f : TimeRec → TimeRec) (hf : ∀ r, (f r).day = r.day) :
    (setCardSlot card d f).map (fun r => r.day)
      = card.map (fun r => r.day) := by
  unfold setCardSlot
  cases hg : card.get? (d - 1) with
  | none => rfl
  | some r =>
    rw [List.map_set, hf r]
    refine set_of_get? _ _ _ ?_
    rw [List.get?_map, hg]
    rfl

/-! ## Simple-parser invariants -/

/-- Invariants preserved by `mapAssocUpdate`. -/
theorem mapAssocUpdate_inv {P : Employee → Prop}
    {l : List (String × Employee)} {k : String} {f : Employee → Employee}
    (hl : ∀ kv ∈ l, P kv.2) (hf : ∀ e, P e → P (f e)) :
    ∀ kv ∈ mapAssocUpdate l k f, P kv.2 := by
  intro kv hkv
  unfold mapAssocUpdate at hkv
  rcases List.mem_map.mp hkv with ⟨kv₀, hkv₀, rfl⟩
  by_cases hkey : kv₀.1 == k
  · simpa [hkey] using hf kv₀.2 (hl kv₀ hkv₀)
  · simpa [hkey] using hl kv₀ hkv₀

/-- Invariants preserved by one row step of the simple parser. -/
theorem stepRow_inv {P : Employee → Prop}
    (hfresh : ∀ nm y m, P (freshEmployee nm y m))
    (hcard : ∀ e d tt ci co, P e →
      P { e with timeCard := setCardSlot e.timeCard d (applySession tt ci co) })
    {acc : List (String × Employee)} (hacc : ∀ kv ∈ acc, P kv.2)
    (row : SimpleRow) : ∀ kv ∈ stepRow acc row, P kv.2 := by
  unfold stepRow
  cases hres : resolveRow row with
  | none => exact hacc
  | some data =>
    obtain ⟨nm, y, m, d, tt, ci, co⟩ := data
    have hacc1 : ∀ kv ∈
        (if ((List.find? (fun kv => kv.1 == simpleKey nm y m) acc)).isSome
          then acc
          else acc ++ [(simpleKey nm y m, freshEmployee nm y m)]),
        P kv.2 := by
      split
      · exact hacc
      · intro kv hkv
        rcases List.mem_append.mp hkv with hkv | hkv
        · exact hacc kv hkv
        · rcases List.mem_singleton.mp hkv with rfl
          exact hfresh nm y m
    refine mapAssocUpdate_inv hacc1 ?_
    intro e he
    split
    · exact hcard e d tt ci co he
    · exact he

/-- Invariants preserved along the whole row fold. -/
theorem foldl_stepRow_inv {P : Employee → Prop}
    (hfresh : ∀ nm y m, P (freshEmployee nm y m))
    (hcard : ∀ e d tt ci co, P e →
      P { e with timeCard := setCardSlot e.timeCard d (applySession tt ci co) }) :
    ∀ (rows : List SimpleRow) (acc : List (String × Employee)),
      (∀ kv ∈ acc, P kv.2) → ∀ kv ∈ rows.foldl stepRow acc, P kv.2
  | [], acc, hacc => hacc
  | row :: rows, acc, hacc =>
    foldl_stepRow_inv hfresh hcard rows (stepRow acc row)
      (stepRow_inv hfresh hcard hacc row)

/-! ## C10 — simple-parser employee fields -/

/-- C10 (confirmed).  Every employee the simple-format parser produces has
`userId` equal to `name` and empty department, attendance date range and
tabling date. -/
theorem c10_simple_employee_fields (rows : List SimpleRow)
    (emp : Employee) (h : emp ∈ parseSimpleBiometric rows) :
    emp.userId = emp.name ∧ emp.department = ""
      ∧ emp.attendanceDateRange = "" ∧ emp.tablingDate = "" := by
  unfold parseSimpleBiometric at h
  rcases List.mem_map.mp h with ⟨kv, hkv, rfl⟩
  have hP := foldl_stepRow_inv
    (P := fun e => e.userId = e.name ∧ e.department = ""
      ∧ e.attendanceDateRange = "" ∧ e.tablingDate = "")
    (fun nm y m => by simp [freshEmployee])
    (fun e d tt ci co he => he)
    rows [] (by intro kv hkv; cases hkv) kv hkv
  simpa [finalizeSimpleEmployee] using hP

/-- A one-row flat sheet: Alice, 05/04/2025, AM session. -/
def simpleRows0 : List SimpleRow :=
  [{ name := "Alice"
     date := some (.str "05/04/2025")
     timetable := "AM"
     clockIn := "08:15"
     clockOut := "12:00" }]

/-- The first employee parsed from `simpleRows0`. -/
def simpleEmp0 : Employee :=
  (parseSimpleBiometric simpleRows0).getD 0 (freshEmployee "x" 0 0)

/-- Witness for `c10_simple_employee_fields` on `simpleRows0`. -/
theorem c10_simple_employee_fields_witness :
    simpleEmp0.userId = simpleEmp0.name ∧ simpleEmp0.department = ""
      ∧ simpleEmp0.attendanceDateRange = ""
      ∧ simpleEmp0.tablingDate = "" :=
  c10_simple_employee_fields simpleRows0 simpleEmp0 (by decide)

/-! ## C1 — dense time cards -/

/-- C1 (corrected).  The block parser and the on-demand time summary are
dense over `daysInMonth`: their cards are numbered contiguously
`1 .. daysInMonth`.  The simple parser instead always emits exactly 31
entries numbered `1 .. 31`, whatever the month's length (see
`c1_counterexample`). -/
theorem c1_dense_timecard :
    (∀ (sh : Sheet) (ctx : BlockCtx) (sp : Nat × Nat) (emp : Employee)
        (y m : Nat),
      blockEmployee sh ctx sp = some emp →
      monthPartsOpt ctx.month = some (y, m) →
      emp.timeCard.map (fun r => r.day) = List.range' 1 (daysInMonth y m)
        ∧ emp.timeCard.length = daysInMonth y m)
    ∧ (∀ (emp : Employee) (month : String) (y m : Nat),
      monthPartsOpt month = some (y, m) →
      (calculateEmployeeTimeSummary (some emp) month).1.map
          (fun r => r.day) = List.range' 1 (daysInMonth y m)
        ∧ (calculateEmployeeTimeSummary (some emp) month).1.length
          = daysInMonth y m
        ∧ (calculateEmployeeTimeSummary (some emp) month).2
          = daysInMonth y m)
    ∧ (∀ (rows : List SimpleRow) (emp : Employee),
      emp ∈ parseSimpleBiometric rows →
      emp.timeCard.map (fun r => r.day) = List.range' 1 31
        ∧ emp.timeCard.length = 31) := by
  refine ⟨?_, ?_, ?_⟩
  · intro sh ctx sp emp y m hemp hmonth
    unfold blockEmployee at hemp
    by_cases hacc : blockAccepted sh sp
    · rw [if_pos hacc] at hemp
      injection hemp with hemp
      subst hemp
      have hcard : (blockEmployeeData sh ctx sp).timeCard
          = blockTimeCard y m (daysInMonth y m)
            (scanDays sh sp.1 (daysInMonth y m) (dataStartRow sh ctx sp)
              (dataStartRow sh ctx sp)
              (sh.maxRow + 1 - dataStartRow sh ctx sp)) := by
        unfold blockEmployeeData
        rw [hmonth]
      rw [hcard]
      refine ⟨blockTimeCard_days _ _ _ _, ?_⟩
      have := congrArg List.length (blockTimeCard_days y m (daysInMonth y m)
        (scanDays sh sp.1 (daysInMonth y m) (dataStartRow sh ctx sp)
          (dataStartRow sh ctx sp)
          (sh.maxRow + 1 - dataStartRow sh ctx sp)))
      rwa [List.length_map, List.length_range'] at this
    · rw [if_neg hacc] at hemp
      cases hemp
  · intro emp month y m hmonth
    have hne : month ≠ "" := by
      intro he
      rw [he] at hmonth
      exact Option.noConfusion hmonth
    have heq : calculateEmployeeTimeSummary (some emp) month
        = ((List.range' 1 (daysInMonth y m)).map
            (fun d => mkTimeRec d (dateWeekdayCaption y m d)
              (calculateDailyMetricsFromTimes
                ((lookupDay emp.timeCard d).map rawOfStored |>.getD {}) y m
                d)),
          daysInMonth y m) := by
      simp only [calculateEmployeeTimeSummary]
      rw [if_neg hne, hmonth]
    rw [heq]
    refine ⟨map_day_of_day_eq _ _ (fun _ => rfl), ?_, rfl⟩
    have := congrArg List.length
      (map_day_of_day_eq (List.range' 1 (daysInMonth y m))
        (fun d => mkTimeRec d (dateWeekdayCaption y m d)
          (calculateDailyMetricsFromTimes
            ((lookupDay emp.timeCard d).map rawOfStored |>.getD {}) y m d))
        (fun _ => rfl))
    rwa [List.length_map, List.length_range'] at this
  · intro rows emp h
    unfold parseSimpleBiometric at h
    rcases List.mem_map.mp h with ⟨kv, hkv, rfl⟩
    have hP := foldl_stepRow_inv
      (P := fun e => e.timeCard.map (fun r => r.day) = List.range' 1 31)
      (fun nm y m => map_day_of_day_eq _ _ (fun _ => rfl))
      (fun e d tt ci co he => by
        show (setCardSlot e.timeCard d (applySession tt ci co)).map
            (fun r => r.day) = List.range' 1 31
        rw [setCardSlot_days _ _ _ (applySession_day tt ci co)]
        exact he)
      rows [] (by intro kv hkv; cases hkv) kv hkv
    have hmap : (finalizeSimpleEmployee kv.2).timeCard.map (fun r => r.day)
        = kv.2.timeCard.map (fun r => r.day) := by
      unfold finalizeSimpleEmployee
      rw [List.map_map]
      rfl
    refine ⟨hmap.trans hP, ?_⟩
    have := congrArg List.length (hmap.trans hP)
    rwa [List.length_map, List.length_range'] at this

/-- A minimal single-block sheet with only the name and user-id headers. -/
def blockSheet0 : Sheet :=
  { maxRow := 2
    maxCol := 3
    cells := [(0, 0, .str "Name"), (0, 1, .str "A"),
      (1, 0, .str "User ID"), (1, 1, .str "7")]
    merges := [] }

/-- A block context for April 2025. -/
def blockCtx0 : BlockCtx :=
  { month := "2025-04"
    attendanceDateRange := ""
    tablingDate := ""
    maxHdrRow := 0 }

/-- The employee parsed from `blockSheet0`'s single block. -/
def blockEmp0 : Employee :=
  (blockEmployee blockSheet0 blockCtx0 (0, 3)).getD (freshEmployee "x" 0 0)

/-- An employee record used with the time summary. -/
def summaryEmp0 : Employee := freshEmployee "B" 2025 4

/-- Witness for `c1_dense_timecard` on concrete April-2025 inputs. -/
theorem c1_dense_timecard_witness :
    (blockEmp0.timeCard.map (fun r => r.day)
        = List.range' 1 (daysInMonth 2025 4)
      ∧ blockEmp0.timeCard.length = daysInMonth 2025 4)
    ∧ ((calculateEmployeeTimeSummary (some summaryEmp0) "2025-04").1.map
          (fun r => r.day) = List.range' 1 (daysInMonth 2025 4)
      ∧ (calculateEmployeeTimeSummary (some summaryEmp0) "2025-04").1.length
        = daysInMonth 2025 4
      ∧ (calculateEmployeeTimeSummary (some summaryEmp0) "2025-04").2
        = daysInMonth 2025 4)
    ∧ (simpleEmp0.timeCard.map (fun r => r.day) = List.range' 1 31
      ∧ simpleEmp0.timeCard.length = 31) :=
  ⟨c1_dense_timecard.1 blockSheet0 blockCtx0 (0, 3) blockEmp0 2025 4
      (by decide) (by decide),
    c1_dense_timecard.2.1 summaryEmp0 "2025-04" 2025 4 (by decide),
    c1_dense_timecard.2.2 simpleRows0 simpleEmp0 (by decide)⟩

/-- C1 counterexample: the simple parser builds a 31-entry card for
April 2025, which has 30 days — the claimed `daysInMonth` density fails on
the simple-format path. -/
theorem c1_counterexample :
    (parseSimpleBiometric simpleRows0).map
        (fun e => (e.month, e.timeCard.length)) = [("2025-04", 31)]
    ∧ daysInMonth 2025 4 = 30
    ∧ (31 : Nat) ≠ 30 := by
  refine ⟨by decide, by decide, by decide⟩

/-! ## C8 — malformed blocks are skipped -/

/-- Guarded `filterMap` is `filter` then `map`. -/
theorem filterMap_guard {α β : Type} (p : α → Bool) (f : α → β) :
    ∀ l : List α,
      l.filterMap (fun a => if p a then some (f a) else none)
        = (l.filter p).map f
  | [] => rfl
  | a :: l => by
    by_cases hp : p a
    · simp [hp, filterMap_guard p f l]
    · simp [hp, filterMap_guard p f l]

/-- C8 (confirmed).  Block parsing yields exactly one employee per
discovered block whose extracted name and user id are both non-empty, in
block order: a malformed block contributes nothing and the remaining
blocks are still processed. -/
theorem c8_skip_malformed_blocks (sh : Sheet) (today : Nat × Nat) :
    parseSingleEmployeeAttendanceSheet sh today
      = ((blockSpansOf sh).filter (blockAccepted sh)).map
        (blockEmployeeData sh (sheetCtx sh today)) := by
  unfold parseSingleEmployeeAttendanceSheet
  by_cases hloc : (dayHeaderLocations sh).isEmpty
  · rw [if_pos hloc]
    have h0 : dayHeaderLocations sh = [] := List.isEmpty_iff.mp hloc
    unfold blockSpansOf sortedDayCols
    rw [h0]
    rfl
  · rw [if_neg hloc]
    exact filterMap_guard (blockAccepted sh)
      (blockEmployeeData sh (sheetCtx sh today)) (blockSpansOf sh)

/-! ## C9 — storage filter and read-back defaults -/

/-- C9 (confirmed).  A day row is persisted iff at least one of its six
raw time fields is non-empty; the read-back path synthesizes absent days
with empty fields, the undertime pair carrying the long weekday name on
weekends and the empty string on weekdays. -/
theorem c9_storage_roundtrip :
    (∀ (db : Db) (e : Employee),
      (upsertEmployee db e).timeRecords (upsertTargetId db e)
        = e.timeCard.filter hasRawTime)
    ∧ (∀ (e : Employee) (rec : TimeRec),
      rec ∈ e.timeCard.filter hasRawTime ↔
        rec ∈ e.timeCard
          ∧ (rec.am_arrival ≠ "" ∨ rec.am_departure ≠ ""
            ∨ rec.pm_arrival ≠ "" ∨ rec.pm_departure ≠ ""
            ∨ rec.ot_arrival ≠ "" ∨ rec.ot_departure ≠ ""))
    ∧ (∀ (recs : List TimeRec) (y m d : Nat), lookupDay recs d = none →
      (formDisplayDay recs y m d).am_arrival = ""
        ∧ (formDisplayDay recs y m d).pm_arrival = ""
        ∧ (formDisplayDay recs y m d).ot_arrival = ""
        ∧ (formDisplayDay recs y m d).total_hours = ""
        ∧ (formDisplayDay recs y m d).late = ""
        ∧ (formDisplayDay recs y m d).remarks = ""
        ∧ (formDisplayDay recs y m d).undertime_hours
          = (if dayOfWeek y m d = 0 ∨ dayOfWeek y m d = 6 then
              weekdayLong (dayOfWeek y m d)
            else "")
        ∧ (formDisplayDay recs y m d).undertime_minutes
          = (if dayOfWeek y m d = 0 ∨ dayOfWeek y m d = 6 then
              weekdayLong (dayOfWeek y m d)
            else "")) := by
  refine ⟨?_, ?_, ?_⟩
  · intro db e
    unfold upsertEmployee upsertTargetId storedRecords
    cases hf : findEmployeeRow db.employees e with
    | some r => exact Function.update_same _ _ _
    | none => exact Function.update_same _ _ _
  · intro e rec
    rw [List.mem_filter]
    refine and_congr_right fun _ => ?_
    unfold hasRawTime
    simp only [Bool.or_eq_true, decide_eq_true_eq, ne_eq]
    tauto
  · intro recs y m d h
    unfold formDisplayDay
    rw [h]
    unfold defaultDisplayDay
    exact ⟨rfl, rfl, rfl, rfl, rfl, rfl, rfl, rfl⟩

/-- A stored card with one worked day and one metrics-only day. -/
def roundtripEmployee : Employee :=
  { userId := "7"
    name := "A"
    department := ""
    month := "2025-04"
    attendanceDateRange := ""
    tablingDate := ""
    timeCard :=
      [{ day := 1, am_arrival := "08:00" },
        { day := 5, undertime_hours := "Saturday",
          undertime_minutes := "Saturday" }] }

/-- The empty database. -/
def emptyDb : Db :=
  { employees := []
    timeRecords := fun _ => []
    nextId := 0 }

/-- Witness for `c9_storage_roundtrip`: the metrics-only day is not
stored, and read-back of the absent Sunday 2025-04-06 synthesizes the
weekday-name undertime pair. -/
theorem c9_storage_roundtrip_witness :
    (upsertEmployee emptyDb roundtripEmployee).timeRecords
        (upsertTargetId emptyDb roundtripEmployee)
      = roundtripEmployee.timeCard.filter hasRawTime
    ∧ ((formDisplayDay [] 2025 4 6).undertime_hours
        = (if dayOfWeek 2025 4 6 = 0 ∨ dayOfWeek 2025 4 6 = 6 then
            weekdayLong (dayOfWeek 2025 4 6)
          else "")
      ∧ (formDisplayDay [] 2025 4 6).undertime_minutes
        = (if dayOfWeek 2025 4 6 = 0 ∨ dayOfWeek 2025 4 6 = 6 then
            weekdayLong (dayOfWeek 2025 4 6)
          else "")) :=
  ⟨c9_storage_roundtrip.1 emptyDb roundtripEmployee,
    (c9_storage_roundtrip.2.2 [] 2025 4 6 rfl).2.2.2.2.2.2.1,
    (c9_storage_roundtrip.2.2 [] 2025 4 6 rfl).2.2.2.2.2.2.2⟩

/-! ## C5 — reload idempotence

The development below shows that running the persistence transaction twice
over the same parsed employee list leaves the database exactly as after
one run: the second pass finds every composite key already present,
updates in place with the same values, and replaces each employee's day
rows with the same rows. -/

/-- Updating never changes a row's composite key. -/
theorem keyMatches_update (e e' : Employee) (r : EmployeeRow) :
    keyMatches e (applyEmployeeUpdate e' r) = keyMatches e r := rfl

/-- Updating twice collapses to the last update. -/
theorem applyEmployeeUpdate_idem (e e' : Employee) (r : EmployeeRow) :
    applyEmployeeUpdate e (applyEmployeeUpdate e' r)
      = applyEmployeeUpdate e r := rfl

/-- Updating never changes a row's id. -/
theorem applyEmployeeUpdate_id (e : Employee) (r : EmployeeRow) :
    (applyEmployeeUpdate e r).id = r.id := rfl

/-- `keyMatches` unfolded to a key equation. -/
theorem keyMatches_iff {e : Employee} {r : EmployeeRow} :
    keyMatches e r = true ↔ rowKeyOf r = empKeyOf e := by
  simp [keyMatches]

/-- Employees with the same composite key match the same rows. -/
theorem keyMatches_congr {e e' : Employee}
    (h : empKeyOf e = empKeyOf e') (r : EmployeeRow) :
    keyMatches e r = keyMatches e' r := by
  unfold keyMatches
  rw [h]

/-- A freshly inserted row matches its employee's key. -/
theorem keyMatches_newRow (e : Employee) (i : Nat) :
    keyMatches e (newEmployeeRow i e) = true := by
  simp [keyMatches, rowKeyOf, newEmployeeRow, empKeyOf]

/-- A row matching one key cannot match a different key. -/
theorem keyMatches_false_of_ne {e e' : Employee}
    (h : empKeyOf e ≠ empKeyOf e') {r : EmployeeRow}
    (hm : keyMatches e r = true) : keyMatches e' r = false := by
  cases hb : keyMatches e' r with
  | false => rfl
  | true =>
    exact absurd ((keyMatches_iff.mp hm).symm.trans (keyMatches_iff.mp hb))
      h

/-- Rows matching different keys are different rows. -/
theorem row_ne_of_key_ne {e e' : Employee}
    (h : empKeyOf e ≠ empKeyOf e') {r r' : EmployeeRow}
    (hr : keyMatches e r = true) (hr' : keyMatches e' r' = true) :
    r ≠ r' := by
  intro heq
  subst heq
  rw [keyMatches_false_of_ne h hr] at hr'
  cases hr'

/-- Unfolding equation for `updateEmployeeRows` on a cons. -/
theorem updateEmployeeRows_cons (e : Employee) (r : EmployeeRow)
    (rs : List EmployeeRow) :
    updateEmployeeRows e (r :: rs)
      = if keyMatches e r then applyEmployeeUpdate e r :: rs
        else r :: updateEmployeeRows e rs := rfl

/-- Unfolding equation for `findEmployeeRow` on a cons. -/
theorem findEmployeeRow_cons (e : Employee) (r : EmployeeRow)
    (rs : List EmployeeRow) :
    findEmployeeRow (r :: rs) e
      = if keyMatches e r then some r else findEmployeeRow rs e := rfl

/-- The row found by key is a member of the table. -/
theorem findEmployeeRow_mem (e : Employee) :
    ∀ (rows : List EmployeeRow) (r : EmployeeRow),
      findEmployeeRow rows e = some r → r ∈ rows
  | [], _, h => by cases h
  | r₀ :: rs, r, h => by
    unfold findEmployeeRow at h
    by_cases hk : keyMatches e r₀
    · rw [if_pos hk] at h
      injection h with h
      exact h ▸ List.mem_cons_self _ _
    · rw [if_neg hk] at h
      exact List.mem_cons_of_mem _ (findEmployeeRow_mem e rs r h)

/-- The row found by key matches the key. -/
theorem findEmployeeRow_matches (e : Employee) :
    ∀ (rows : List EmployeeRow) (r : EmployeeRow),
      findEmployeeRow rows e = some r → keyMatches e r = true
  | [], _, h => by cases h
  | r₀ :: rs, r, h => by
    unfold findEmployeeRow at h
    by_cases hk : keyMatches e r₀
    · rw [if_pos hk] at h
      injection h with h
      exact h ▸ hk
    · rw [if_neg hk] at h
      exact findEmployeeRow_matches e rs r h

/-- Finding depends only on the composite key. -/
theorem findEmployeeRow_congr {e e' : Employee}
    (h : empKeyOf e = empKeyOf e') :
    ∀ rows : List EmployeeRow,
      findEmployeeRow rows e = findEmployeeRow rows e'
  | [] => rfl
  | r :: rs => by
    unfold findEmployeeRow
    rw [keyMatches_congr h r, findEmployeeRow_congr h rs]

/-- An update under a different key does not disturb a lookup. -/
theorem findEmployeeRow_update_ne {e e' : Employee}
    (h : empKeyOf e ≠ empKeyOf e') :
    ∀ rows : List EmployeeRow,
      findEmployeeRow (updateEmployeeRows e' rows) e
        = findEmployeeRow rows e
  | [] => rfl
  | r :: rs => by
    unfold updateEmployeeRows
    by_cases hk : keyMatches e' r
    · have hke : keyMatches e r = false :=
        keyMatches_false_of_ne (Ne.symm h) hk
      rw [if_pos hk]
      unfold findEmployeeRow
      rw [keyMatches_update, hke]
      simp only [Bool.false_eq_true, if_false]
    · rw [if_neg hk]
      unfold findEmployeeRow
      rw [findEmployeeRow_update_ne h rs]

/-- Looking up the key just updated returns the updated row. -/
theorem findEmployeeRow_update_self (e : Employee) :
    ∀ (rows : List EmployeeRow) (r : EmployeeRow),
      findEmployeeRow rows e = some r →
      findEmployeeRow (updateEmployeeRows e rows) e
        = some (applyEmployeeUpdate e r)
  | [], _, h => by cases h
  | r₀ :: rs, r, h => by
    unfold findEmployeeRow at h
    unfold updateEmployeeRows
    by_cases hk : keyMatches e r₀
    · rw [if_pos hk] at h
      injection h with h
      subst h
      rw [if_pos hk]
      unfold findEmployeeRow
      rw [keyMatches_update, if_pos hk]
    · rw [if_neg hk] at h
      rw [if_neg hk]
      unfold findEmployeeRow
      rw [if_neg hk]
      exact findEmployeeRow_update_self e rs r h

/-- Updating a key that is absent is the identity. -/
theorem updateEmployeeRows_of_none (e : Employee) :
    ∀ rows : List EmployeeRow,
      findEmployeeRow rows e = none → updateEmployeeRows e rows = rows
  | [], _ => rfl
  | r :: rs, h => by
    unfold findEmployeeRow at h
    by_cases hk : keyMatches e r
    · rw [if_pos hk] at h
      cases h
    · rw [if_neg hk] at h
      unfold updateEmployeeRows
      rw [if_neg hk, updateEmployeeRows_of_none e rs h]

/-- Updates preserve the id column. -/
theorem updateEmployeeRows_ids (e : Employee) :
    ∀ rows : List EmployeeRow,
      (updateEmployeeRows e rows).map (fun r => r.id)
        = rows.map (fun r => r.id)
  | [] => rfl
  | r :: rs => by
    unfold updateEmployeeRows
    by_cases hk : keyMatches e r
    · rw [if_pos hk]
      simp [applyEmployeeUpdate_id]
    · rw [if_neg hk]
      simp [updateEmployeeRows_ids e rs]

/-- An update that rewrites the found row to itself is the identity. -/
theorem updateEmployeeRows_stable (e : Employee) :
    ∀ (rows : List EmployeeRow) (r : EmployeeRow),
      findEmployeeRow rows e = some r → applyEmployeeUpdate e r = r →
      updateEmployeeRows e rows = rows
  | [], _, h, _ => by cases h
  | r₀ :: rs, r, h, hst => by
    unfold findEmployeeRow at h
    unfold updateEmployeeRows
    by_cases hk : keyMatches e r₀
    · rw [if_pos hk] at h
      injection h with h
      subst h
      rw [if_pos hk, hst]
    · rw [if_neg hk] at h
      rw [if_neg hk, updateEmployeeRows_stable e rs r h hst]

/-- Two updates under the same key collapse to the last one. -/
theorem updateEmployeeRows_absorb {e e₀ : Employee}
    (h : empKeyOf e₀ = empKeyOf e) :
    ∀ rows : List EmployeeRow,
      updateEmployeeRows e₀ (updateEmployeeRows e rows)
        = updateEmployeeRows e₀ rows
  | [] => rfl
  | r :: rs => by
    by_cases hk : keyMatches e r
    · have hk₀ : keyMatches e₀ r = true := by
        rw [keyMatches_congr h r]
        exact hk
      rw [updateEmployeeRows_cons e r rs, if_pos hk,
        updateEmployeeRows_cons e₀ (applyEmployeeUpdate e r) rs,
        keyMatches_update, if_pos hk₀, applyEmployeeUpdate_idem,
        updateEmployeeRows_cons e₀ r rs, if_pos hk₀]
    · have hk₀ : ¬ keyMatches e₀ r = true := by
        rw [keyMatches_congr h r]
        exact hk
      rw [updateEmployeeRows_cons e r rs, if_neg hk,
        updateEmployeeRows_cons e₀ r (updateEmployeeRows e rs),
        if_neg hk₀, updateEmployeeRows_cons e₀ r rs, if_neg hk₀,
        updateEmployeeRows_absorb h rs]

/-- Updates under different keys commute. -/
theorem updateEmployeeRows_comm {e e₀ : Employee}
    (h : empKeyOf e ≠ empKeyOf e₀) :
    ∀ rows : List EmployeeRow,
      updateEmployeeRows e₀ (updateEmployeeRows e rows)
        = updateEmployeeRows e (updateEmployeeRows e₀ rows)
  | [] => rfl
  | r :: rs => by
    by_cases hk : keyMatches e r
    · have hk₀ : ¬ keyMatches e₀ r = true := by
        simp [keyMatches_false_of_ne h hk]
      rw [updateEmployeeRows_cons e r rs, if_pos hk,
        updateEmployeeRows_cons e₀ (applyEmployeeUpdate e r) rs,
        keyMatches_update, if_neg hk₀,
        updateEmployeeRows_cons e₀ r rs, if_neg hk₀,
        updateEmployeeRows_cons e r (updateEmployeeRows e₀ rs),
        if_pos hk]
    · by_cases hk₀ : keyMatches e₀ r
      · rw [updateEmployeeRows_cons e r rs, if_neg hk,
          updateEmployeeRows_cons e₀ r (updateEmployeeRows e rs),
          if_pos hk₀, updateEmployeeRows_cons e₀ r rs, if_pos hk₀,
          updateEmployeeRows_cons e (applyEmployeeUpdate e₀ r) rs,
          keyMatches_update, if_neg hk]
      · rw [updateEmployeeRows_cons e r rs, if_neg hk,
          updateEmployeeRows_cons e₀ r (updateEmployeeRows e rs),
          if_neg hk₀, updateEmployeeRows_cons e₀ r rs, if_neg hk₀,
          updateEmployeeRows_cons e r (updateEmployeeRows e₀ rs),
          if_neg hk, updateEmployeeRows_comm h rs]

/-- An update whose target sits in the prefix ignores the suffix. -/
theorem updateEmployeeRows_append (e : Employee) :
    ∀ (rows : List EmployeeRow) (r : EmployeeRow)
      (l : List EmployeeRow),
      findEmployeeRow rows e = some r →
      updateEmployeeRows e (rows ++ l) = updateEmployeeRows e rows ++ l
  | [], _, _, h => by cases h
  | r₀ :: rs, r, l, h => by
    rw [findEmployeeRow_cons] at h
    show updateEmployeeRows e (r₀ :: (rs ++ l))
      = updateEmployeeRows e (r₀ :: rs) ++ l
    by_cases hk : keyMatches e r₀
    · rw [updateEmployeeRows_cons e r₀ (rs ++ l), if_pos hk,
        updateEmployeeRows_cons e r₀ rs, if_pos hk]
      rfl
    · rw [if_neg hk] at h
      rw [updateEmployeeRows_cons e r₀ (rs ++ l), if_neg hk,
        updateEmployeeRows_cons e r₀ rs, if_neg hk,
        updateEmployeeRows_append e rs r l h]
      rfl

/-- A lookup that succeeds on the prefix succeeds on the whole table. -/
theorem findEmployeeRow_append_some (e : Employee) :
    ∀ (rows : List EmployeeRow) (r : EmployeeRow)
      (l : List EmployeeRow),
      findEmployeeRow rows e = some r →
      findEmployeeRow (rows ++ l) e = some r
  | [], _, _, h => by cases h
  | r₀ :: rs, r, l, h => by
    unfold findEmployeeRow at h
    show (if keyMatches e r₀ then some r₀
      else findEmployeeRow (rs ++ l) e) = some r
    by_cases hk : keyMatches e r₀
    · rw [if_pos hk] at h
      rw [if_pos hk]
      exact h
    · rw [if_neg hk] at h
      rw [if_neg hk]
      exact findEmployeeRow_append_some e rs r l h

/-- A lookup that fails on the prefix continues on the suffix. -/
theorem findEmployeeRow_append_none (e : Employee) :
    ∀ (rows : List EmployeeRow) (l : List EmployeeRow),
      findEmployeeRow rows e = none →
      findEmployeeRow (rows ++ l) e = findEmployeeRow l e
  | [], _, _ => rfl
  | r₀ :: rs, l, h => by
    unfold findEmployeeRow at h
    show (if keyMatches e r₀ then some r₀
      else findEmployeeRow (rs ++ l) e) = findEmployeeRow l e
    by_cases hk : keyMatches e r₀
    · rw [if_pos hk] at h
      cases h
    · rw [if_neg hk] at h
      rw [if_neg hk]
      exact findEmployeeRow_append_none e rs l h

/-- Distinct rows of a table with a `Nodup` id column have distinct
ids. -/
theorem id_ne_of_nodup {rows : List EmployeeRow}
    (hnd : (rows.map (fun r => r.id)).Nodup) {r r' : EmployeeRow}
    (hr : r ∈ rows) (hr' : r' ∈ rows) (hne : r ≠ r') : r.id ≠ r'.id :=
  fun hid => hne (List.inj_on_of_nodup_map hnd hr hr' hid)

/-- The upsert preserves database well-formedness. -/
theorem wf_upsert (db : Db) (e : Employee) (h : WfDb db) :
    WfDb (upsertEmployee db e) := by
  obtain ⟨hlt, hnd⟩ := h
  unfold upsertEmployee
  cases hf : findEmployeeRow db.employees e with
  | some r =>
    constructor
    · intro r' hr'
      have hmem : r'.id ∈
          (updateEmployeeRows e db.employees).map (fun r => r.id) :=
        List.mem_map_of_mem _ hr'
      rw [updateEmployeeRows_ids] at hmem
      rcases List.mem_map.mp hmem with ⟨r₀, hr₀, hid⟩
      rw [← hid]
      exact hlt r₀ hr₀
    · show ((updateEmployeeRows e db.employees).map (fun r => r.id)).Nodup
      rw [updateEmployeeRows_ids]
      exact hnd
  | none =>
    constructor
    · intro r' hr'
      rcases List.mem_append.mp hr' with hr' | hr'
      · exact Nat.lt_succ_of_lt (hlt r' hr')
      · rcases List.mem_singleton.mp hr' with rfl
        exact Nat.lt_succ_self _
    · show ((db.employees ++ [newEmployeeRow db.nextId e]).map
        (fun r => r.id)).Nodup
      rw [List.map_append]
      refine List.Nodup.append hnd (List.nodup_singleton _) ?_
      intro i hi hi'
      rcases List.mem_singleton.mp hi' with rfl
      rcases List.mem_map.mp hi with ⟨r₀, hr₀, hid⟩
      exact absurd hid (Nat.ne_of_lt (hlt r₀ hr₀))

/-- The whole store pass preserves well-formedness. -/
theorem wf_store :
    ∀ (es : List Employee) (db : Db), WfDb db →
      WfDb (storeAllEmployees db es)
  | [], _, h => h
  | e :: es, db, h => wf_store es (upsertEmployee db e) (wf_upsert db e h)

/-- The composite key of `e` resolves to a row of the table. -/
def PresentDb (db : Db) (e : Employee) : Prop :=
  ∃ r, findEmployeeRow db.employees e = some r

/-- The table already carries exactly the values `upsertEmployee db e`
would write: the found row is update-stable and the day rows under its id
are the filtered time card. -/
def SyncedDb (db : Db) (e : Employee) : Prop :=
  ∃ r, findEmployeeRow db.employees e = some r
    ∧ applyEmployeeUpdate e r = r
    ∧ db.timeRecords r.id = storedRecords e

/-- `SyncedDb` is in particular key presence. -/
theorem present_of_synced {db : Db} {e : Employee} (h : SyncedDb db e) :
    PresentDb db e := by
  rcases h with ⟨r, hf, _, _⟩
  exact ⟨r, hf⟩

/-- Key presence survives any upsert. -/
theorem present_upsert {db : Db} {e e' : Employee}
    (h : PresentDb db e) : PresentDb (upsertEmployee db e') e := by
  rcases h with ⟨r, hf⟩
  unfold upsertEmployee
  cases hf' : findEmployeeRow db.employees e' with
  | some r₀ =>
    by_cases hk : empKeyOf e = empKeyOf e'
    · have hf2 : findEmployeeRow db.employees e' = some r := by
        rw [← findEmployeeRow_congr hk]
        exact hf
      refine ⟨applyEmployeeUpdate e' r, ?_⟩
      rw [findEmployeeRow_congr hk]
      exact findEmployeeRow_update_self e' db.employees r hf2
    · exact ⟨r, (findEmployeeRow_update_ne hk db.employees).trans hf⟩
  | none => exact ⟨r, findEmployeeRow_append_some e db.employees r _ hf⟩

/-- Key presence survives the whole store pass. -/
theorem present_store {e : Employee} :
    ∀ (es : List Employee) (db : Db), PresentDb db e →
      PresentDb (storeAllEmployees db es) e
  | [], _, h => h
  | e' :: es, db, h => present_store es (upsertEmployee db e')
      (present_upsert h)

/-- After an upsert, the database is synced for the employee just
written. -/
theorem synced_upsert_self (db : Db) (e : Employee) :
    SyncedDb (upsertEmployee db e) e := by
  unfold upsertEmployee
  cases hf : findEmployeeRow db.employees e with
  | some r =>
    refine ⟨applyEmployeeUpdate e r, ?_, applyEmployeeUpdate_idem e e r, ?_⟩
    · exact findEmployeeRow_update_self e db.employees r hf
    · show Function.update db.timeRecords r.id (storedRecords e)
        ((applyEmployeeUpdate e r).id) = storedRecords e
      rw [applyEmployeeUpdate_id]
      exact Function.update_same _ _ _
  | none =>
    refine ⟨newEmployeeRow db.nextId e, ?_, rfl, ?_⟩
    · rw [findEmployeeRow_append_none e db.employees _ hf]
      unfold findEmployeeRow
      rw [if_pos (keyMatches_newRow e db.nextId)]
    · exact Function.update_same _ _ _

/-- Being synced for `e` survives an upsert under a different key. -/
theorem synced_upsert_other {db : Db} {e e' : Employee}
    (hk : empKeyOf e' ≠ empKeyOf e) (hwf : WfDb db)
    (hs : SyncedDb db e) : SyncedDb (upsertEmployee db e') e := by
  rcases hs with ⟨r, hf, hst, hrec⟩
  have hkm : keyMatches e r = true := findEmployeeRow_matches e _ r hf
  unfold upsertEmployee
  cases hf' : findEmployeeRow db.employees e' with
  | some r₀ =>
    have hkm₀ : keyMatches e' r₀ = true :=
      findEmployeeRow_matches e' _ r₀ hf'
    have hne : r ≠ r₀ := row_ne_of_key_ne (Ne.symm hk) hkm hkm₀
    have hid : r.id ≠ r₀.id :=
      id_ne_of_nodup hwf.2 (findEmployeeRow_mem e _ r hf)
        (findEmployeeRow_mem e' _ r₀ hf') hne
    refine ⟨r, ?_, hst, ?_⟩
    · rw [findEmployeeRow_update_ne (Ne.symm hk)]
      exact hf
    · show Function.update db.timeRecords r₀.id (storedRecords e') r.id
        = storedRecords e
      rw [Function.update_noteq hid]
      exact hrec
  | none =>
    have hid : r.id ≠ db.nextId :=
      Nat.ne_of_lt (hwf.1 r (findEmployeeRow_mem e _ r hf))
    refine ⟨r, findEmployeeRow_append_some e db.employees r _ hf, hst, ?_⟩
    show Function.update db.timeRecords db.nextId (storedRecords e') r.id
      = storedRecords e
    rw [Function.update_noteq hid]
    exact hrec

/-- Being synced for `e` survives a whole pass over employees with other
keys. -/
theorem synced_store_others {e : Employee} :
    ∀ (es : List Employee) (db : Db),
      (∀ e' ∈ es, empKeyOf e' ≠ empKeyOf e) → WfDb db → SyncedDb db e →
      SyncedDb (storeAllEmployees db es) e
  | [], _, _, _, hs => hs
  | e' :: es, db, hk, hwf, hs =>
    synced_store_others es (upsertEmployee db e')
      (fun e'' he'' => hk e'' (List.mem_cons_of_mem _ he''))
      (wf_upsert db e' hwf)
      (synced_upsert_other (hk e' (List.mem_cons_self _ _)) hwf hs)

/-- Upserting into a synced database changes nothing. -/
theorem upsert_of_synced {db : Db} {e : Employee} (hs : SyncedDb db e) :
    upsertEmployee db e = db := by
  obtain ⟨emps, trecs, nid⟩ := db
  rcases hs with ⟨r, hf, hst, hrec⟩
  unfold upsertEmployee
  simp only at hf
  rw [hf]
  simp only [Db.mk.injEq]
  refine ⟨updateEmployeeRows_stable e emps r hf hst, ?_, trivial⟩
  simp only at hrec
  rw [← hrec]
  exact Function.update_eq_self r.id trecs

/-- Upserting `e` then `e₀` with the same key equals upserting `e₀`
directly, once the key is present. -/
theorem upsert_absorb {db : Db} {e e₀ : Employee}
    (hk : empKeyOf e₀ = empKeyOf e) (hp : PresentDb db e) :
    upsertEmployee (upsertEmployee db e) e₀ = upsertEmployee db e₀ := by
  obtain ⟨emps, trecs, nid⟩ := db
  rcases hp with ⟨r, hf⟩
  simp only at hf
  have hf₀ : findEmployeeRow emps e₀ = some r := by
    rw [findEmployeeRow_congr hk]
    exact hf
  have hfu : findEmployeeRow (updateEmployeeRows e emps) e₀
      = some (applyEmployeeUpdate e r) := by
    rw [findEmployeeRow_congr hk]
    exact findEmployeeRow_update_self e emps r hf
  show upsertEmployee (upsertEmployee (Db.mk emps trecs nid) e) e₀ = _
  unfold upsertEmployee
  simp only
  rw [hf, hf₀]
  simp only
  rw [hfu]
  simp only [Db.mk.injEq]
  refine ⟨updateEmployeeRows_absorb hk emps, ?_, trivial⟩
  rw [applyEmployeeUpdate_id]
  exact Function.update_idem _ _ _

/-- Upserts under different keys commute, when the first key is already
present. -/
theorem upsert_comm {db : Db} {e e₀ : Employee}
    (hk : empKeyOf e ≠ empKeyOf e₀) (hp : PresentDb db e)
    (hwf : WfDb db) :
    upsertEmployee (upsertEmployee db e) e₀
      = upsertEmployee (upsertEmployee db e₀) e := by
  obtain ⟨emps, trecs, nid⟩ := db
  rcases hp with ⟨r, hf⟩
  simp only at hf
  have hkm : keyMatches e r = true := findEmployeeRow_matches e _ r hf
  cases hf₀ : findEmployeeRow emps e₀ with
  | some r₀ =>
    have hkm₀ : keyMatches e₀ r₀ = true :=
      findEmployeeRow_matches e₀ _ r₀ hf₀
    have hne : r ≠ r₀ := row_ne_of_key_ne hk hkm hkm₀
    have hid : r.id ≠ r₀.id :=
      id_ne_of_nodup hwf.2 (findEmployeeRow_mem e _ r hf)
        (findEmployeeRow_mem e₀ _ r₀ hf₀) hne
    have hfu₀ : findEmployeeRow (updateEmployeeRows e emps) e₀ = some r₀ :=
      (findEmployeeRow_update_ne (Ne.symm hk) emps).trans hf₀
    have hfu : findEmployeeRow (updateEmployeeRows e₀ emps) e = some r :=
      (findEmployeeRow_update_ne hk emps).trans hf
    unfold upsertEmployee
    simp only
    rw [hf, hf₀]
    simp only
    rw [hfu₀, hfu]
    simp only [Db.mk.injEq]
    exact ⟨updateEmployeeRows_comm hk emps,
      Function.update_comm hid _ _ _, trivial⟩
  | none =>
    have hid : r.id ≠ nid :=
      Nat.ne_of_lt (hwf.1 r (findEmployeeRow_mem e _ r hf))
    have hfu₀ : findEmployeeRow (updateEmployeeRows e emps) e₀ = none :=
      (findEmployeeRow_update_ne (Ne.symm hk) emps).trans hf₀
    have hfu : findEmployeeRow (emps ++ [newEmployeeRow nid e₀]) e
        = some r := findEmployeeRow_append_some e emps r _ hf
    unfold upsertEmployee
    simp only
    rw [hf, hf₀]
    simp only
    rw [hfu₀, hfu]
    simp only [Db.mk.injEq]
    exact ⟨(updateEmployeeRows_append e emps r _ hf).symm,
      Function.update_comm hid _ _ _, trivial⟩

/-- A pending upsert is erased by a later pass that writes the same key
again. -/
theorem store_absorb {e : Employee} :
    ∀ (es : List Employee) (db : Db), WfDb db → PresentDb db e →
      (∃ e' ∈ es, empKeyOf e' = empKeyOf e) →
      storeAllEmployees (upsertEmployee db e) es = storeAllEmployees db es
  | [], _, _, _, hex => by
    rcases hex with ⟨_, h, _⟩
    cases h
  | e₀ :: es, db, hwf, hp, hex => by
    show storeAllEmployees (upsertEmployee (upsertEmployee db e) e₀) es
      = storeAllEmployees (upsertEmployee db e₀) es
    by_cases hkey : empKeyOf e₀ = empKeyOf e
    · rw [upsert_absorb hkey hp]
    · have hex' : ∃ e' ∈ es, empKeyOf e' = empKeyOf e := by
        rcases hex with ⟨e', he', hke'⟩
        rcases List.mem_cons.mp he' with rfl | he'
        · exact absurd hke' hkey
        · exact ⟨e', he', hke'⟩
      rw [upsert_comm (fun hcontra => hkey hcontra.symm) hp hwf]
      exact store_absorb es (upsertEmployee db e₀)
        (wf_upsert db e₀ hwf) (present_upsert hp) hex'

/-- C5 (confirmed).  Running the persistence transaction twice over the
same parsed employee list leaves the database identical to one run: every
composite key resolves to an update of the existing row on the second
pass, and each employee's day rows are replaced by the same rows. -/
theorem c5_reload_idempotent (db : Db) (es : List Employee)
    (h : WfDb db) :
    storeAllEmployees (storeAllEmployees db es) es
      = storeAllEmployees db es := by
  induction es generalizing db with
  | nil => rfl
  | cons e es ih =>
    have hwfs : WfDb (upsertEmployee db e) := wf_upsert db e h
    show storeAllEmployees
        (upsertEmployee (storeAllEmployees (upsertEmployee db e) es) e) es
      = storeAllEmployees (upsertEmployee db e) es
    have hsync_s : SyncedDb (upsertEmployee db e) e :=
      synced_upsert_self db e
    by_cases hex : ∃ e' ∈ es, empKeyOf e' = empKeyOf e
    · have hp : PresentDb
          (storeAllEmployees (upsertEmployee db e) es) e :=
        present_store es (upsertEmployee db e) (present_of_synced hsync_s)
      rw [store_absorb es _ (wf_store es _ hwfs) hp hex]
      exact ih (upsertEmployee db e) hwfs
    · push_neg at hex
      have hst : SyncedDb (storeAllEmployees (upsertEmployee db e) es) e :=
        synced_store_others es (upsertEmployee db e) hex hwfs hsync_s
      rw [upsert_of_synced hst]
      exact ih (upsertEmployee db e) hwfs

/-- Witness for `c5_reload_idempotent`: loading a one-employee file twice
into the empty database equals loading it once. -/
theorem c5_reload_idempotent_witness :
    WfDb emptyDb
    ∧ storeAllEmployees (storeAllEmployees emptyDb [roundtripEmployee])
        [roundtripEmployee]
      = storeAllEmployees emptyDb [roundtripEmployee] :=
  ⟨by decide, c5_reload_idempotent emptyDb [roundtripEmployee] (by decide)⟩

end Dtr
